import Mathlib

/-!
Verification of the CRDT core, vector clock, replication loop and collection
facades of the `effect-app-local-first` library, as a shallow embedding in Lean.

JavaScript `Map` and plain-object records are modelled as insertion-ordered
association lists `List (String × β)`: `Map.get` reads the first matching key,
`Map.set` overwrites the first matching entry in place (or appends), `Map.delete`
removes the entry, and object spread `{...m, [k]: v}` behaves like `Map.set`.
JavaScript `Set` built from an array keeps the first occurrence of each element,
modelled by `dedupFirst`.  JavaScript string comparison (`<`, `>`, and
`localeCompare` on the ASCII digit/dot position strings the RGA produces) is
code-unit lexicographic, modelled by `strLt`.  Numeric timestamps are `Int`
(wall-clock milliseconds); vector-clock components are `Nat` (the spec fixes
them as non-negative).  Effectful code is modelled with explicit state passing;
an `Effect` value is modelled by `EffResult`, distinguishing the typed error
channel (`fail`) from a defect/fiber death (`die`), because `Effect.sync`
converts a thrown exception into a defect rather than a typed failure.
-/

namespace LocalFirst

/-! ### Association lists: the model of JS `Map` / record objects -/

/-- `Map.get k` / `record[k]`: the first entry with the given key. -/
def alookup {β : Type*} : List (String × β) → String → Option β
  | [], _ => none
  | (k, v) :: rest, key => if k = key then some v else alookup rest key

/-- `record[k] || d` / `map.get(k) || d`: lookup with a default. -/
def agetD {β : Type*} (m : List (String × β)) (k : String) (d : β) : β :=
  (alookup m k).getD d

/-- `Map.set k v` / spread `{...m, [k]: v}`: overwrite in place or append. -/
def aset {β : Type*} : List (String × β) → String → β → List (String × β)
  | [], key, v => [(key, v)]
  | (k, w) :: rest, key, v =>
    if k = key then (key, v) :: rest else (k, w) :: aset rest key v

/-- `Map.delete k`: remove the entry with the given key. -/
def adel {β : Type*} : List (String × β) → String → List (String × β)
  | [], _ => []
  | (k, w) :: rest, key => if k = key then rest else (k, w) :: adel rest key

/-- `Map.keys()` / `Object.keys`. -/
def akeys {β : Type*} (m : List (String × β)) : List String := m.map Prod.fst

/-- The data-type invariant of a JS `Map` / record: keys are unique. -/
def NodupKeys {β : Type*} (m : List (String × β)) : Prop := (akeys m).Nodup

instance {β : Type*} (m : List (String × β)) : Decidable (NodupKeys m) := by
  unfold NodupKeys; infer_instance

/-- `new Set([...])`: keep the first occurrence of each element, in order. -/
def dedupFirstAux {α : Type*} [DecidableEq α] : List α → List α → List α
  | [], _ => []
  | a :: l, seen =>
    if a ∈ seen then dedupFirstAux l seen else a :: dedupFirstAux l (a :: seen)

/-- `Array.from(new Set(l))`. -/
def dedupFirst {α : Type*} [DecidableEq α] (l : List α) : List α :=
  dedupFirstAux l []

/-! ### JS string comparison (code-unit lexicographic) -/

/-- Lexicographic comparison of character lists by code point. -/
def charListLt : List Char → List Char → Bool
  | _, [] => false
  | [], _ :: _ => true
  | a :: as, b :: bs =>
    if a.toNat < b.toNat then true
    else if b.toNat < a.toNat then false
    else charListLt as bs

/-- JS `a < b` on strings (also `a.localeCompare(b) < 0` on ASCII data). -/
def strLt (a b : String) : Bool := charListLt a.data b.data

/-! ### Vector clock (`Core.ts` / `VectorClock`) -/

/-- `VectorClock`: a record mapping replica ids to logical timestamps. -/
structure VectorClock where
  timestamps : List (String × Nat)
deriving DecidableEq

/-- `VectorClock.empty()`. -/
def VectorClock.empty : VectorClock := ⟨[]⟩

/-- `this.timestamps[replicaId] || 0`. -/
def VectorClock.lookupTS (c : VectorClock) (replicaId : String) : Nat :=
  agetD c.timestamps replicaId 0

/-- `increment(replicaId)`: bump one component, missing treated as zero. -/
def VectorClock.increment (c : VectorClock) (replicaId : String) : VectorClock :=
  ⟨aset c.timestamps replicaId (c.lookupTS replicaId + 1)⟩

/-- `compare(other)`: -1 Less, 1 Greater, 0 Equal/Concurrent.  Iterates the
union of the key sets maintaining the two flags `allLess` / `allGreater`. -/
def VectorClock.compare (a b : VectorClock) : Int :=
  let allKeys := dedupFirst (akeys a.timestamps ++ akeys b.timestamps)
  let fl := allKeys.foldl
    (fun fl k =>
      (fl.1 && ! decide (b.lookupTS k < a.lookupTS k),
       fl.2 && ! decide (a.lookupTS k < b.lookupTS k)))
    (true, true)
  if fl.1 && ! fl.2 then -1 else if fl.2 && ! fl.1 then 1 else 0

/-! ### The shared merge-loop pattern of the map-shaped CRDTs

Every map-shaped merge in `Core.ts` runs the same loop: iterate the other
side's entries; a key absent locally is inserted; on a key present in both the
winning entry is chosen by a per-type rule (leaving the map unchanged when the
local entry wins, which on a JS `Map` is the same as re-setting it). -/

/-- The common merge loop, parameterized by the conflict rule `pick mine other`. -/
def mergeAL {β : Type*} (pick : β → β → β) (a b : List (String × β)) :
    List (String × β) :=
  b.foldl
    (fun acc p =>
      match alookup acc p.1 with
      | none => aset acc p.1 p.2
      | some mine => aset acc p.1 (pick mine p.2))
    a

/-- Pointwise description of one `mergeAL` lookup. -/
def combineO {β : Type*} (pick : β → β → β) : Option β → Option β → Option β
  | x, none => x
  | none, some y => some y
  | some x, some y => some (pick x y)

/-- The `(timestamp, replicaId)` freshness test used by the tombstone-set,
ordered-set and RGA merges: `other.ts > mine.ts || (other.ts === mine.ts &&
other.replicaId > mine.replicaId)`. -/
def tsNewer (mts : Int) (mrep : String) (ots : Int) (orep : String) : Bool :=
  decide (mts < ots) || (decide (ots = mts) && strLt mrep orep)

/-! ### LWW-Register (`Core.ts` / `LWWRegister`) -/

structure LWWRegister (α : Type*) where
  value : α
  timestamp : Int
  replicaId : String
deriving DecidableEq

/-- `merge(other)`: larger timestamp wins, ties broken by larger replica id. -/
def LWWRegister.merge {α : Type*} (a b : LWWRegister α) : LWWRegister α :=
  if b.timestamp < a.timestamp then a
  else if a.timestamp < b.timestamp then b
  else if strLt b.replicaId a.replicaId then a else b

/-- `get()`. -/
def LWWRegister.get {α : Type*} (r : LWWRegister α) : α := r.value

/-! ### G-Set (`Core.ts` / `GSet`) -/

structure GSet (α : Type*) where
  elements : List α
deriving DecidableEq

def GSet.empty {α : Type*} : GSet α := ⟨[]⟩

/-- `add(element)`: append unless already present. -/
def GSet.add {α : Type*} [DecidableEq α] (s : GSet α) (e : α) : GSet α :=
  if e ∈ s.elements then s else ⟨s.elements ++ [e]⟩

/-- `has(element)`. -/
def GSet.has {α : Type*} [DecidableEq α] (s : GSet α) (e : α) : Bool :=
  decide (e ∈ s.elements)

/-- `values()`. -/
def GSet.values {α : Type*} (s : GSet α) : List α := s.elements

/-- `merge(other)`: `new Set([...this.elements, ...other.elements])`. -/
def GSet.merge {α : Type*} [DecidableEq α] (a b : GSet α) : GSet α :=
  ⟨dedupFirst (a.elements ++ b.elements)⟩

/-! ### 2P-Set (`Core.ts` / `TwoPhaseSet`) -/

structure TwoPhaseSet (α : Type*) where
  additions : List α
  removals : List α
deriving DecidableEq

def TwoPhaseSet.empty {α : Type*} : TwoPhaseSet α := ⟨[], []⟩

/-- `add(element)`: refused when the element has been removed. -/
def TwoPhaseSet.add {α : Type*} [DecidableEq α] (s : TwoPhaseSet α) (e : α) :
    TwoPhaseSet α :=
  if e ∈ s.removals then s else ⟨dedupFirst (s.additions ++ [e]), s.removals⟩

/-- `remove(element)`: always recorded in the removal set. -/
def TwoPhaseSet.remove {α : Type*} [DecidableEq α] (s : TwoPhaseSet α) (e : α) :
    TwoPhaseSet α :=
  ⟨s.additions, dedupFirst (s.removals ++ [e])⟩

/-- `has(element)`: added and not removed. -/
def TwoPhaseSet.has {α : Type*} [DecidableEq α] (s : TwoPhaseSet α) (e : α) : Bool :=
  decide (e ∈ s.additions) && ! decide (e ∈ s.removals)

/-- `values()`: the additions that were not removed. -/
def TwoPhaseSet.values {α : Type*} [DecidableEq α] (s : TwoPhaseSet α) : List α :=
  s.additions.filter (fun x => ! decide (x ∈ s.removals))

/-- `merge(other)`: union both internal sets. -/
def TwoPhaseSet.merge {α : Type*} [DecidableEq α] (a b : TwoPhaseSet α) :
    TwoPhaseSet α :=
  ⟨dedupFirst (a.additions ++ b.additions), dedupFirst (a.removals ++ b.removals)⟩

/-! ### Tombstone set (`Core.ts` / `TombstoneSet`) -/

/-- A stored element: `{ value, timestamp, replicaId }`. -/
structure TSElem (α : Type*) where
  value : α
  timestamp : Int
  replicaId : String
deriving DecidableEq

/-- A tombstone: `{ timestamp, replicaId }`. -/
structure TSTomb where
  timestamp : Int
  replicaId : String
deriving DecidableEq

structure TombstoneSet (α : Type*) where
  elements : List (String × TSElem α)
  tombstones : List (String × TSTomb)
deriving DecidableEq

/-- `has(id)`: element exists and is newer than any tombstone. -/
def TombstoneSet.has {α : Type*} (s : TombstoneSet α) (id : String) : Bool :=
  match alookup s.elements id, alookup s.tombstones id with
  | none, _ => false
  | some _, none => true
  | some e, some t => decide (t.timestamp < e.timestamp)

/-- `get(id)`: the value when `has(id)`. -/
def TombstoneSet.get {α : Type*} (s : TombstoneSet α) (id : String) : Option α :=
  if s.has id then (alookup s.elements id).map (fun e => e.value) else none

/-- `merge(other)`: keep the `(ts, replicaId)`-max entry and tombstone per id,
then drop elements dominated by a strictly newer tombstone, then drop
tombstones dominated by a strictly newer element. -/
def TombstoneSet.merge {α : Type*} (a b : TombstoneSet α) : TombstoneSet α :=
  let mergedElements := mergeAL
    (fun me oe =>
      if tsNewer me.timestamp me.replicaId oe.timestamp oe.replicaId then oe else me)
    a.elements b.elements
  let mergedTombstones := mergeAL
    (fun mt ot =>
      if tsNewer mt.timestamp mt.replicaId ot.timestamp ot.replicaId then ot else mt)
    a.tombstones b.tombstones
  let prunedElements := mergedElements.filter
    (fun p =>
      match alookup mergedTombstones p.1 with
      | some t => ! decide (p.2.timestamp < t.timestamp)
      | none => true)
  let prunedTombstones := mergedTombstones.filter
    (fun p =>
      match alookup prunedElements p.1 with
      | some e => ! decide (p.2.timestamp < e.timestamp)
      | none => true)
  ⟨prunedElements, prunedTombstones⟩

/-! ### Ordered set (`Core.ts` / `OrderedSet`): permanent tombstones -/

structure OrderedSet (α : Type*) where
  elements : List (String × TSElem α)
  tombstones : List String
deriving DecidableEq

/-- `has(id)`: present and not tombstoned. -/
def OrderedSet.has {α : Type*} (s : OrderedSet α) (id : String) : Bool :=
  (alookup s.elements id).isSome && ! decide (id ∈ s.tombstones)

/-- `get(id)`. -/
def OrderedSet.get {α : Type*} (s : OrderedSet α) (id : String) : Option α :=
  match alookup s.elements id with
  | none => none
  | some e => if id ∈ s.tombstones then none else some e.value

/-- `merge(other)`: `(ts, replicaId)`-max per element id; tombstones unioned. -/
def OrderedSet.merge {α : Type*} (a b : OrderedSet α) : OrderedSet α :=
  ⟨mergeAL
      (fun me oe =>
        if tsNewer me.timestamp me.replicaId oe.timestamp oe.replicaId then oe else me)
      a.elements b.elements,
    dedupFirst (a.tombstones ++ b.tombstones)⟩

/-! ### OR-Map (`Core.ts` / `ORMap`) -/

/-- `ORMapEntry`: value, added timestamp, optional removal timestamp. -/
structure ORMapEntry (α : Type*) where
  value : α
  added : Int
  removed : Option Int
deriving DecidableEq

/-- `isVisible()`. -/
def ORMapEntry.isVisible {α : Type*} (e : ORMapEntry α) : Bool := e.removed.isNone

/-- `Option.getOrElse(entry.removed, () => entry.added)`: the latest activity. -/
def ORMapEntry.latest {α : Type*} (e : ORMapEntry α) : Int := e.removed.getD e.added

structure ORMap (α : Type*) where
  entries : List (String × ORMapEntry α)
deriving DecidableEq

/-- `get(key)`: `Some` only for a visible entry. -/
def ORMap.get {α : Type*} (m : ORMap α) (key : String) : Option α :=
  match alookup m.entries key with
  | some e => if e.isVisible then some e.value else none
  | none => none

/-- `merge(other)`: per key keep the entry with the greater latest activity. -/
def ORMap.merge {α : Type*} (a b : ORMap α) : ORMap α :=
  ⟨mergeAL (fun me oe => if me.latest < oe.latest then oe else me) a.entries b.entries⟩

/-! ### PN-Counter (`Core.ts` / `PNCounter`) -/

structure PNCounter where
  increments : List (String × Nat)
  decrements : List (String × Nat)
deriving DecidableEq

/-- `value()`: total increments minus total decrements. -/
def PNCounter.value (c : PNCounter) : Int :=
  ((c.increments.map Prod.snd).sum : Int) - ((c.decrements.map Prod.snd).sum : Int)

/-- `merge(other)`: per-replica max on both maps. -/
def PNCounter.merge (a b : PNCounter) : PNCounter :=
  ⟨mergeAL (fun current count => Nat.max current count) a.increments b.increments,
    mergeAL (fun current count => Nat.max current count) a.decrements b.decrements⟩

/-! ### RGA (`Core.ts` / `RGA`)

Positions are dotted-decimal strings (`"0.1"`, `"0.1.5"`, ...).  The logical
order sorts elements by `a.position.localeCompare(b.position)`, i.e. by `strLt`
on these ASCII strings.  `pos.split(".")` is `splitDot`; `.map(Number)` on the
components is modelled by `toNumber` with `NaN` collapsed to `0` (on a `NaN`
component the only uses below are `> 0` tests, where `NaN` and `0` behave
alike); `parseInt` is `parseIntLeading` (leading-digits parse, with the code's
explicit `isNaN` fallback to `0`). -/

structure RGAElement (α : Type*) where
  id : String
  value : α
  timestamp : Int
  replicaId : String
  position : String
deriving DecidableEq

structure RGA (α : Type*) where
  elements : List (String × RGAElement α)
deriving DecidableEq

def RGA.empty {α : Type*} : RGA α := ⟨[]⟩

/-- `a.position.localeCompare(b.position) <= 0`, as the sort comparator. -/
def posLeB (p q : String) : Bool := ! strLt q p

/-- The element ordering used to sort an RGA into logical order. -/
def rgaLe {α : Type*} (x y : RGAElement α) : Prop :=
  posLeB x.position y.position = true

instance {α : Type*} : DecidableRel (@rgaLe α) :=
  fun x y => inferInstanceAs (Decidable (posLeB x.position y.position = true))

/-- `Array.from(this.elements.values()).sort(by position)`. -/
def RGA.sortedElems {α : Type*} (r : RGA α) : List (RGAElement α) :=
  List.insertionSort rgaLe (r.elements.map Prod.snd)

/-- `toArray()`: values in logical order. -/
def RGA.toArray {α : Type*} (r : RGA α) : List α :=
  r.sortedElems.map (fun e => e.value)

/-- `removeAt(index)`: delete the element at sorted index `index`; out-of-bounds
indices return the array unchanged. -/
def RGA.removeAt {α : Type*} (r : RGA α) (index : Int) : RGA α :=
  let allElements := r.sortedElems
  if index < 0 ∨ (allElements.length : Int) ≤ index then r
  else
    match allElements[index.toNat]? with
    | some elementToRemove => ⟨adel r.elements elementToRemove.id⟩
    | none => r

/-- `merge(other)`: union by id, conflicts resolved by `(ts, replicaId)` max. -/
def RGA.merge {α : Type*} (a b : RGA α) : RGA α :=
  ⟨mergeAL
      (fun me oe =>
        if tsNewer me.timestamp me.replicaId oe.timestamp oe.replicaId then oe else me)
      a.elements b.elements⟩

/-- `pos.split(".")` on the character list (JS `split` on a 1-char separator). -/
def splitDotAux : List Char → List Char → List (List Char)
  | [], cur => [cur.reverse]
  | c :: rest, cur =>
    if c = '.' then cur.reverse :: splitDotAux rest [] else splitDotAux rest (c :: cur)

/-- `pos.split(".")`. -/
def splitDot (s : String) : List String := (splitDotAux s.data []).map String.mk

/-- `parts.join(".")`. -/
def joinDot (parts : List String) : String := String.intercalate "." parts

/-- The numeric value of a digit string. -/
def digitsVal (ds : List Char) : Nat :=
  ds.foldl (fun n c => n * 10 + (c.toNat - 48)) 0

/-- `parseInt(s)`: parse the leading run of digits, `none` when there is none
(`NaN` in JS). -/
def parseIntLeading (s : String) : Option Nat :=
  let ds := s.data.takeWhile (fun c => c.isDigit)
  if ds.isEmpty then none else some (digitsVal ds)

/-- `calculatePositionAfter(pos)`: increment the last dotted component (with
the code's `isNaN` fallback to `0`) and re-join. -/
def RGA.calculatePositionAfter (pos : String) : String :=
  let parts := splitDot pos
  if parts.isEmpty then "0.1"
  else
    let lastNum := (parseIntLeading (parts.getLastD "")).getD 0
    joinDot (parts.dropLast ++ [toString (lastNum + 1)])

/-- JS `Number(s)` on a dotted-position component: `""` is `0`, a digit string
is its value, anything else is `NaN` (`none`). -/
def toNumber (s : String) : Option Nat :=
  if s.data.isEmpty then some 0
  else if s.data.all (fun c => c.isDigit) then some (digitsVal s.data)
  else none

/-- The decrement loop of `calculatePositionBefore`, processing the component
list from the right: decrement the first strictly positive component, zeroing
the (already zero) components after it; `none` when all components are zero. -/
def decFromRight : List Nat → Option (List Nat)
  | [] => none
  | n :: rest =>
    if 0 < n then some ((n - 1) :: rest)
    else
      match decFromRight rest with
      | some rest2 => some (0 :: rest2)
      | none => none

/-- `calculatePositionBefore(pos)`: decrement the last non-zero component and
zero everything after it; fall back to `"0.0"` when no component is positive. -/
def RGA.calculatePositionBefore (pos : String) : String :=
  let parts := (splitDot pos).map (fun s => (toNumber s).getD 0)
  match decFromRight parts.reverse with
  | some rev2 => joinDot ((rev2.reverse).map toString)
  | none => "0.0"

/-- The `commonLength` loop of `calculatePositionBetween`. -/
def commonPrefixLen : List Nat → List Nat → Nat
  | a :: as, b :: bs => if a = b then commonPrefixLen as bs + 1 else 0
  | _, _ => 0

/-- `calculatePositionBetween(prevPos, nextPos)`. -/
def RGA.calculatePositionBetween (prevPos nextPos : String) : String :=
  let prevParts := (splitDot prevPos).map (fun s => (toNumber s).getD 0)
  let nextParts := (splitDot nextPos).map (fun s => (toNumber s).getD 0)
  let commonLength := commonPrefixLen prevParts nextParts
  if commonLength = prevParts.length then
    if commonLength < nextParts.length ∧ 0 < nextParts.getD commonLength 0 then
      joinDot ((prevParts ++ [0]).map toString)
    else
      joinDot ((prevParts ++ [0, 1]).map toString)
  else if commonLength = nextParts.length then
    joinDot ((prevParts ++ [0]).map toString)
  else
    let prevValue := prevParts.getD commonLength 0
    let nextValue := nextParts.getD commonLength 0
    if prevValue + 1 < nextValue then
      joinDot ((prevParts.take commonLength ++ [(prevValue + nextValue) / 2]).map toString)
    else if commonLength + 1 < prevParts.length then
      joinDot ((prevParts ++ [0]).map toString)
    else
      joinDot ((prevParts ++ [5]).map toString)

/-- `generatePositionBetween(prevPos, nextPos)` with `null` as `none`. -/
def RGA.generatePositionBetween : Option String → Option String → String
  | none, none => "0.0"
  | none, some nextPos => RGA.calculatePositionBefore nextPos
  | some prevPos, none => RGA.calculatePositionAfter prevPos
  | some prevPos, some nextPos => RGA.calculatePositionBetween prevPos nextPos

/-- `append(value, replicaId)`: place after the largest existing position.
`Date.now()` and the random id are passed in as `timestamp` / `freshId`. -/
def RGA.append {α : Type*} (r : RGA α) (value : α) (replicaId : String)
    (timestamp : Int) (freshId : String) : RGA α :=
  let allElements := r.sortedElems
  let lastPos := (allElements.getLast?).map (fun e => e.position)
  let position := RGA.generatePositionBetween lastPos none
  ⟨aset r.elements freshId ⟨freshId, value, timestamp, replicaId, position⟩⟩

/-! ### Errors (`Errors.ts`) and the effect-outcome model

An executed `Effect` either succeeds, fails with a typed error in the error
channel, or dies with a defect (an exception thrown where none was expected,
e.g. inside `Effect.sync`); `Effect.catchAll` recovers only from the second. -/

structure StorageError where
  message : String
deriving DecidableEq

structure SyncError where
  message : String
  code : String
deriving DecidableEq

inductive LocalFirstError where
  | storage (e : StorageError)
  | syncFailure (e : SyncError)
  | crdt (message : String) (operation : String)
deriving DecidableEq

/-- Outcome of running an effect: success, typed failure, or defect. -/
inductive EffResult (ε : Type*) (α : Type*) where
  | ok (a : α)
  | fail (e : ε)
  | die (defect : ε)
deriving DecidableEq

/-! ### Storage backends (`Storage.ts`) -/

/-- `MemoryStorageLive.get`: `Effect.sync(() => { if (!storage.has(key)) throw
new StorageError(...); return storage.get(key)! })`.  The `throw` happens
inside `Effect.sync`, so a missing key surfaces as a defect, not a typed
failure. -/
def memoryGet {V : Type*} (store : List (String × V)) (key : String) :
    EffResult StorageError V :=
  match alookup store key with
  | some v => EffResult.ok v
  | none => EffResult.die ⟨"Key not found: " ++ key⟩

/-- `IndexedDBLive.get`: the transaction result is the stored record or
`undefined`; a missing key becomes `Effect.fail(new StorageError(...))`, a
typed failure.  The IndexedDB object-store content is modelled as a key-value
table. -/
def indexedDBGet {V : Type*} (table : List (String × V)) (key : String) :
    EffResult StorageError V :=
  match alookup table key with
  | some v => EffResult.ok v
  | none => EffResult.fail ⟨"Key not found: " ++ key⟩

/-! ### Sync operations and the replication loop (`Framework.ts`, `Sync.ts`) -/

inductive OpType where
  | set
  | delete
  | reconcile
deriving DecidableEq

/-- `SyncOperation` (the `value` is absent for deletes; `serverClock` only for
reconcile operations). -/
structure SyncOperation (V : Type*) where
  id : String
  type : OpType
  key : String
  value : Option V
  timestamp : Int
  replicaId : String
  vectorClock : VectorClock
  serverClock : Option VectorClock
deriving DecidableEq

/-- The replica-local state touched by `applyOperations`: the storage backend
(a slot may hold `undefined`, i.e. `none`, if a valueless set was applied) and
the shared vector-clock cell. -/
structure ReplicaState (V : Type*) where
  store : List (String × Option V)
  clock : VectorClock
deriving DecidableEq

/-- One iteration of the `applyOperations` loop: skip loopback operations and
operations whose clock compares `Less` to the local clock; otherwise dispatch
on the kind and then overwrite the local clock with the operation's clock. -/
def applyOp {V : Type*} (replicaId : String) (s : ReplicaState V)
    (op : SyncOperation V) : ReplicaState V :=
  if op.replicaId = replicaId then s
  else if VectorClock.compare op.vectorClock s.clock = -1 then s
  else
    let s1 :=
      match op.type with
      | OpType.set => { s with store := aset s.store op.key op.value }
      | OpType.delete => { s with store := adel s.store op.key }
      | OpType.reconcile =>
        match op.serverClock with
        | some sc => { s with clock := sc }
        | none => s
    { s1 with clock := op.vectorClock }

/-- `applyOperations(operations, storage, vectorClock, replicaId)`. -/
def applyOperations {V : Type*} (replicaId : String) (s : ReplicaState V)
    (ops : List (SyncOperation V)) : ReplicaState V :=
  ops.foldl (applyOp replicaId) s

/-! ### Collection facades (`Framework.ts`) -/

/-- Facade-level state: the collection's storage slot holds the CRDT value
itself, next to the shared vector clock. -/
structure CollectionState (V : Type*) where
  store : List (String × V)
  clock : VectorClock
deriving DecidableEq

/-- `setWithSync(collection, value)`: write the slot, bump the local clock,
emit a sync operation; transport errors are swallowed
(`sync.push(...).pipe(Effect.catchAll(() => Effect.void))`).  The transport is
passed in as `push`, `Date.now()` as `timestamp`, the random id as `opId`. -/
def setWithSync {V : Type*} (push : List (SyncOperation V) → Except SyncError Unit)
    (name : String) (value : V) (replicaId opId : String) (timestamp : Int)
    (s : CollectionState V) : EffResult LocalFirstError (CollectionState V) :=
  let store1 := aset s.store name value
  let newClock := s.clock.increment replicaId
  let operation : SyncOperation V :=
    ⟨opId, OpType.set, name, some value, timestamp, replicaId, newClock, none⟩
  match push [operation] with
  | Except.ok _ => EffResult.ok ⟨store1, newClock⟩
  | Except.error _ => EffResult.ok ⟨store1, newClock⟩

/-- `Collection.get()` through the memory backend. -/
def collectionGet {V : Type*} (s : CollectionState V) (name : String) :
    EffResult LocalFirstError V :=
  match memoryGet s.store name with
  | EffResult.ok v => EffResult.ok v
  | EffResult.fail e => EffResult.fail (LocalFirstError.storage e)
  | EffResult.die d => EffResult.die (LocalFirstError.storage d)

/-- `getOrCreateEmpty(getter, emptyFactory)`: `Effect.catchAll` recovers from
typed failures only; a defect passes through. -/
def getOrCreateEmpty {γ : Type*} (getter : EffResult LocalFirstError γ)
    (emptyFactory : Unit → γ) : EffResult LocalFirstError γ :=
  match getter with
  | EffResult.ok v => EffResult.ok v
  | EffResult.fail _ => EffResult.ok (emptyFactory ())
  | EffResult.die d => EffResult.die d

/-- `RGACollection.removeAt(index)`: read the current RGA (empty on a typed
miss), apply `removeAt`, write back through `setWithSync`. -/
def rgaCollectionRemoveAt {γ : Type*}
    (push : List (SyncOperation (RGA γ)) → Except SyncError Unit)
    (name : String) (index : Int) (replicaId opId : String) (timestamp : Int)
    (s : CollectionState (RGA γ)) :
    EffResult LocalFirstError (CollectionState (RGA γ)) :=
  match getOrCreateEmpty (collectionGet s name) (fun _ => RGA.empty) with
  | EffResult.ok current =>
    setWithSync push name (current.removeAt index) replicaId opId timestamp s
  | EffResult.fail e => EffResult.fail e
  | EffResult.die d => EffResult.die d

/-! ### Side conditions used by the commutativity statements -/

/-- Pointwise dominance of vector clocks; missing keys read as zero. -/
def leAll (a b : VectorClock) : Prop :=
  ∀ k, a.lookupTS k ≤ b.lookupTS k

/-- Entries for a shared key in the two maps never tie on `(ts, replicaId)`
while disagreeing; ties between *equal* entries are allowed. -/
def NoTsTies {β : Type*} (ts : β → Int) (rep : β → String)
    (a b : List (String × β)) : Prop :=
  ∀ p ∈ a, ∀ q ∈ b, p.1 = q.1 → ts p.2 = ts q.2 → rep p.2 = rep q.2 → p.2 = q.2

/-- OR-Map entries for a shared key never tie on latest activity while
disagreeing. -/
def NoLatestTies {α : Type*} (a b : List (String × ORMapEntry α)) : Prop :=
  ∀ p ∈ a, ∀ q ∈ b, p.1 = q.1 → p.2.latest = q.2.latest → p.2 = q.2

/-- Distinct RGA ids carry distinct position strings. -/
def DistinctPositions {α : Type*} (l : List (String × RGAElement α)) : Prop :=
  ∀ p ∈ l, ∀ q ∈ l, p.1 ≠ q.1 → p.2.position ≠ q.2.position

instance {β : Type*} [DecidableEq β] (ts : β → Int) (rep : β → String)
    (a b : List (String × β)) : Decidable (NoTsTies ts rep a b) := by
  unfold NoTsTies
  infer_instance

instance {α : Type*} [DecidableEq α] (a b : List (String × ORMapEntry α)) :
    Decidable (NoLatestTies a b) := by
  unfold NoLatestTies
  infer_instance

instance {α : Type*} (l : List (String × RGAElement α)) :
    Decidable (DistinctPositions l) := by
  unfold DistinctPositions
  infer_instance

/-! ## Lemmas about the association-list model -/

section AListLemmas

variable {β : Type*}

theorem alookup_aset_self (m : List (String × β)) (k : String) (v : β) :
    alookup (aset m k v) k = some v := by
  induction m with
  | nil => simp [aset, alookup]
  | cons p rest ih =>
    rcases p with ⟨k0, w⟩
    by_cases h : k0 = k
    · simp [aset, h, alookup]
    · simpa [aset, h, alookup] using ih

theorem alookup_aset_ne (m : List (String × β)) (k : String) (v : β)
    {k' : String} (h : k' ≠ k) : alookup (aset m k v) k' = alookup m k' := by
  induction m with
  | nil => simp [aset, alookup, Ne.symm h]
  | cons p rest ih =>
    rcases p with ⟨k0, w⟩
    by_cases hp : k0 = k
    · subst hp
      simp [aset, alookup, Ne.symm h]
    · simp only [aset, if_neg hp, alookup]
      by_cases hp' : k0 = k'
      · simp [hp']
      · simp [hp', ih]

theorem alookup_eq_none_of_not_mem_akeys {m : List (String × β)} {k : String}
    (h : k ∉ akeys m) : alookup m k = none := by
  induction m with
  | nil => rfl
  | cons p rest ih =>
    rcases p with ⟨k0, w⟩
    simp only [akeys, List.map_cons, List.mem_cons, not_or] at h
    simp only [alookup, if_neg (Ne.symm h.1), ih h.2]

theorem mem_of_alookup_eq_some {m : List (String × β)} {k : String} {v : β}
    (h : alookup m k = some v) : (k, v) ∈ m := by
  induction m with
  | nil => simp [alookup] at h
  | cons p rest ih =>
    rcases p with ⟨k0, w⟩
    by_cases hp : k0 = k
    · subst hp
      have h' : w = v := by simpa [alookup] using h
      subst h'
      exact List.mem_cons_self _ _
    · simp only [alookup, if_neg hp] at h
      exact List.mem_cons_of_mem _ (ih h)

theorem alookup_eq_some_of_mem {m : List (String × β)} {k : String} {v : β}
    (hnd : NodupKeys m) (hm : (k, v) ∈ m) : alookup m k = some v := by
  induction m with
  | nil => simp at hm
  | cons p rest ih =>
    rcases p with ⟨k0, w⟩
    simp only [NodupKeys, akeys, List.map_cons, List.nodup_cons] at hnd
    rcases List.mem_cons.mp hm with h | h
    · rw [Prod.mk.injEq] at h
      rw [h.1, h.2]
      simp [alookup]
    · have hk : k0 ≠ k := by
        intro hk
        exact hnd.1 (hk ▸ (List.mem_map.mpr ⟨(k, v), h, rfl⟩))
      simp only [alookup, if_neg hk]
      exact ih hnd.2 h

theorem alookup_isSome_iff {m : List (String × β)} {k : String} :
    (alookup m k).isSome = true ↔ k ∈ akeys m := by
  induction m with
  | nil => simp [alookup, akeys]
  | cons p rest ih =>
    rcases p with ⟨k0, w⟩
    by_cases hp : k0 = k
    · simp [alookup, hp, akeys]
    · simp only [akeys] at ih
      simp [alookup, hp, akeys, ih, Ne.symm hp]

theorem akeys_aset (m : List (String × β)) (k : String) (v : β) :
    akeys (aset m k v) = if k ∈ akeys m then akeys m else akeys m ++ [k] := by
  induction m with
  | nil => simp [aset, akeys]
  | cons p rest ih =>
    rcases p with ⟨k0, w⟩
    by_cases hp : k0 = k
    · simp [aset, hp, akeys]
    · simp only [aset, if_neg hp, akeys, List.map_cons] at ih ⊢
      by_cases hm : k ∈ List.map Prod.fst rest
      · simp [hm, ih, Ne.symm hp]
      · simp [hm, ih, Ne.symm hp]

theorem nodupKeys_aset {m : List (String × β)} (hnd : NodupKeys m)
    (k : String) (v : β) : NodupKeys (aset m k v) := by
  unfold NodupKeys
  rw [akeys_aset]
  by_cases hm : k ∈ akeys m
  · simpa [hm] using hnd
  · simp only [hm, if_false]
    exact List.Nodup.append hnd (List.nodup_singleton k)
      (by simpa [List.disjoint_singleton] using hm)

theorem nodupKeys_filter {m : List (String × β)} (hnd : NodupKeys m)
    (p : String × β → Bool) : NodupKeys (m.filter p) := by
  unfold NodupKeys akeys at hnd ⊢
  exact List.Nodup.sublist (List.Sublist.map Prod.fst (List.filter_sublist m)) hnd

theorem alookup_filter {m : List (String × β)} (hnd : NodupKeys m)
    (p : String × β → Bool) (k : String) :
    alookup (m.filter p) k
      = (alookup m k).bind (fun v => if p (k, v) then some v else none) := by
  induction m with
  | nil => simp [alookup]
  | cons q rest ih =>
    rcases q with ⟨k0, w⟩
    simp only [NodupKeys, akeys, List.map_cons, List.nodup_cons] at hnd
    by_cases hq : k0 = k
    · subst hq
      have hrest : alookup rest k0 = none :=
        alookup_eq_none_of_not_mem_akeys hnd.1
      by_cases hp : p (k0, w)
      · simp [List.filter_cons, hp, alookup]
      · have hnone : alookup (List.filter p rest) k0 = none := by
          rw [ih hnd.2, hrest]
          rfl
        simp [List.filter_cons, hp, alookup, hnone]
    · by_cases hp : p (k0, w)
      · simp [List.filter_cons, hp, alookup, hq, ih hnd.2]
      · simp [List.filter_cons, hp, alookup, hq, ih hnd.2]

theorem nodup_of_nodupKeys {m : List (String × β)} (hnd : NodupKeys m) :
    m.Nodup :=
  List.Nodup.of_map Prod.fst hnd

theorem perm_of_alookup_eq {l₁ l₂ : List (String × β)} (h₁ : NodupKeys l₁)
    (h₂ : NodupKeys l₂) (h : ∀ k, alookup l₁ k = alookup l₂ k) :
    l₁.Perm l₂ := by
  refine (List.perm_ext_iff_of_nodup (nodup_of_nodupKeys h₁)
    (nodup_of_nodupKeys h₂)).mpr ?_
  rintro ⟨k, v⟩
  constructor
  · intro hm
    exact mem_of_alookup_eq_some ((h k) ▸ alookup_eq_some_of_mem h₁ hm)
  · intro hm
    exact mem_of_alookup_eq_some ((h k) ▸ alookup_eq_some_of_mem h₂ hm)

end AListLemmas

/-! ## Lemmas about `dedupFirst` -/

section DedupLemmas

variable {α : Type*} [DecidableEq α]

theorem mem_dedupFirstAux (l : List α) (seen : List α) (x : α) :
    x ∈ dedupFirstAux l seen ↔ x ∈ l ∧ x ∉ seen := by
  induction l generalizing seen with
  | nil => simp [dedupFirstAux]
  | cons a l ih =>
    by_cases ha : a ∈ seen
    · rw [dedupFirstAux, if_pos ha, ih]
      constructor
      · rintro ⟨hx, hs⟩
        exact ⟨List.mem_cons_of_mem _ hx, hs⟩
      · rintro ⟨hx, hs⟩
        rcases List.mem_cons.mp hx with rfl | hx
        · exact absurd ha hs
        · exact ⟨hx, hs⟩
    · rw [dedupFirstAux, if_neg ha]
      simp only [List.mem_cons, ih, List.mem_cons, not_or]
      constructor
      · rintro (rfl | ⟨hx, hs1, hs2⟩)
        · exact ⟨Or.inl rfl, ha⟩
        · exact ⟨Or.inr hx, hs2⟩
      · rintro ⟨rfl | hx, hs⟩
        · exact Or.inl rfl
        · by_cases hxa : x = a
          · exact Or.inl hxa
          · exact Or.inr ⟨hx, hxa, hs⟩

theorem mem_dedupFirst (l : List α) (x : α) : x ∈ dedupFirst l ↔ x ∈ l := by
  simpa [dedupFirst] using mem_dedupFirstAux l [] x

end DedupLemmas

/-! ## The code-unit string order is a strict total order -/

section StrOrder

theorem char_toNat_inj {a b : Char} (h : a.toNat = b.toNat) : a = b := by
  apply Char.eq_of_val_eq
  apply UInt32.toNat.inj h

theorem charListLt_asymm :
    ∀ {a b : List Char}, charListLt a b = true → charListLt b a = false := by
  intro a
  induction a with
  | nil =>
    intro b h
    cases b with
    | nil => simp [charListLt] at h
    | cons c cs => simp [charListLt]
  | cons c cs ih =>
    intro b h
    cases b with
    | nil => simp [charListLt] at h
    | cons d ds =>
      simp only [charListLt] at h ⊢
      by_cases h1 : c.toNat < d.toNat
      · rw [if_neg (show ¬ d.toNat < c.toNat by omega), if_pos h1]
      · rw [if_neg h1] at h
        by_cases h2 : d.toNat < c.toNat
        · rw [if_pos h2] at h
          exact absurd h (by simp)
        · rw [if_neg h2] at h
          rw [if_neg h2, if_neg h1]
          exact ih h

theorem charListLt_trans :
    ∀ {a b c : List Char}, charListLt a b = true → charListLt b c = true →
      charListLt a c = true := by
  intro a
  induction a with
  | nil =>
    intro b c hab hbc
    cases c with
    | nil =>
      cases b with
      | nil => simp [charListLt] at hab
      | cons d ds => simp [charListLt] at hbc
    | cons e es => simp [charListLt]
  | cons d ds ih =>
    intro b c hab hbc
    cases b with
    | nil => simp [charListLt] at hab
    | cons e es =>
      cases c with
      | nil => simp [charListLt] at hbc
      | cons f fs =>
        simp only [charListLt] at hab hbc ⊢
        by_cases h1 : d.toNat < e.toNat
        · by_cases h2 : e.toNat < f.toNat
          · rw [if_pos (show d.toNat < f.toNat by omega)]
          · rw [if_neg h2] at hbc
            by_cases h3 : f.toNat < e.toNat
            · rw [if_pos h3] at hbc
              exact absurd hbc (by simp)
            · rw [if_pos (show d.toNat < f.toNat by omega)]
        · rw [if_neg h1] at hab
          by_cases h2 : e.toNat < d.toNat
          · rw [if_pos h2] at hab
            exact absurd hab (by simp)
          · rw [if_neg h2] at hab
            by_cases h3 : e.toNat < f.toNat
            · rw [if_pos (show d.toNat < f.toNat by omega)]
            · rw [if_neg h3] at hbc
              by_cases h4 : f.toNat < e.toNat
              · rw [if_pos h4] at hbc
                exact absurd hbc (by simp)
              · rw [if_neg h4] at hbc
                rw [if_neg (show ¬ d.toNat < f.toNat by omega),
                  if_neg (show ¬ f.toNat < d.toNat by omega)]
                exact ih hab hbc

theorem charListLt_conn :
    ∀ {a b : List Char}, charListLt a b = false → charListLt b a = false →
      a = b := by
  intro a
  induction a with
  | nil =>
    intro b hab _
    cases b with
    | nil => rfl
    | cons c cs => simp [charListLt] at hab
  | cons c cs ih =>
    intro b hab hba
    cases b with
    | nil => simp [charListLt] at hba
    | cons d ds =>
      simp only [charListLt] at hab hba
      by_cases h1 : c.toNat < d.toNat
      · rw [if_pos h1] at hab
        exact absurd hab (by simp)
      · rw [if_neg h1] at hab
        by_cases h2 : d.toNat < c.toNat
        · rw [if_pos h2] at hba
          exact absurd hba (by simp)
        · rw [if_neg h2] at hab
          rw [if_neg h1] at hba
          rw [if_neg h2] at hba
          rw [char_toNat_inj (show c.toNat = d.toNat by omega), ih hab hba]

theorem str_ext {a b : String} (h : a.data = b.data) : a = b := by
  cases a
  cases b
  exact congrArg String.mk h

theorem strLt_asymm {a b : String} (h : strLt a b = true) : strLt b a = false :=
  charListLt_asymm h

theorem strLt_trans {a b c : String} (h1 : strLt a b = true)
    (h2 : strLt b c = true) : strLt a c = true :=
  charListLt_trans h1 h2

theorem strLt_conn {a b : String} (h1 : strLt a b = false)
    (h2 : strLt b a = false) : a = b :=
  str_ext (charListLt_conn h1 h2)

/-- Trichotomy packaged for the `(ts, replicaId)` conflict rule. -/
theorem tsNewer_flip {mts ots : Int} {mrep orep : String}
    (hne : mts = ots → mrep = orep → False) :
    tsNewer mts mrep ots orep = ! tsNewer ots orep mts mrep := by
  unfold tsNewer
  rcases lt_trichotomy mts ots with h | h | h
  · rw [decide_eq_true h, decide_eq_false (by omega : ¬ ots < mts),
      decide_eq_false (by omega : ¬ mts = ots)]
    simp
  · subst h
    rw [decide_eq_false (lt_irrefl mts), decide_eq_true (rfl : mts = mts)]
    simp only [Bool.false_or, Bool.true_and]
    cases hlt : strLt mrep orep with
    | true =>
      rw [strLt_asymm hlt]
      simp
    | false =>
      cases hlt' : strLt orep mrep with
      | true => simp
      | false => exact absurd (strLt_conn hlt' hlt) (fun h => hne rfl h.symm)
  · rw [decide_eq_true h, decide_eq_false (by omega : ¬ mts < ots),
      decide_eq_false (by omega : ¬ ots = mts)]
    simp

end StrOrder

/-! ## The shared merge loop: pointwise description -/

section MergeALLemmas

variable {β : Type*}

theorem alookup_mergeAL (pick : β → β → β) (a b : List (String × β))
    (k : String) (hb : NodupKeys b) :
    alookup (mergeAL pick a b) k = combineO pick (alookup a k) (alookup b k) := by
  induction b generalizing a with
  | nil =>
    show alookup a k = combineO pick (alookup a k) none
    cases alookup a k <;> rfl
  | cons p rest ih =>
    rcases p with ⟨k0, v0⟩
    simp only [NodupKeys, akeys, List.map_cons, List.nodup_cons] at hb
    have step : mergeAL pick a ((k0, v0) :: rest)
        = mergeAL pick
            (match alookup a k0 with
             | none => aset a k0 v0
             | some mine => aset a k0 (pick mine v0)) rest := rfl
    rw [step, ih _ hb.2]
    by_cases hk : k = k0
    · subst hk
      have hrest : alookup rest k = none :=
        alookup_eq_none_of_not_mem_akeys hb.1
      rw [hrest]
      cases ha : alookup a k with
      | none =>
        simp only [ha, alookup_aset_self]
        simp [alookup, combineO]
      | some x =>
        simp only [ha, alookup_aset_self]
        simp [alookup, combineO]
    · have hne : ∀ w, alookup (aset a k0 w) k = alookup a k :=
        fun w => alookup_aset_ne a k0 w hk
      have hstep : alookup
          (match alookup a k0 with
           | none => aset a k0 v0
           | some mine => aset a k0 (pick mine v0)) k = alookup a k := by
        cases alookup a k0 with
        | none => exact hne v0
        | some x => exact hne (pick x v0)
      rw [hstep]
      simp only [alookup, if_neg (Ne.symm hk)]

theorem nodupKeys_mergeAL (pick : β → β → β) (a b : List (String × β))
    (ha : NodupKeys a) : NodupKeys (mergeAL pick a b) := by
  induction b generalizing a with
  | nil => exact ha
  | cons p rest ih =>
    have step : mergeAL pick a (p :: rest)
        = mergeAL pick
            (match alookup a p.1 with
             | none => aset a p.1 p.2
             | some mine => aset a p.1 (pick mine p.2)) rest := rfl
    rw [step]
    apply ih
    cases alookup a p.1 with
    | none => exact nodupKeys_aset ha p.1 p.2
    | some x => exact nodupKeys_aset ha p.1 (pick x p.2)

/-- When the conflict rule always returns one of its arguments, every merged
entry comes from one of the two sides. -/
theorem mergeAL_entry_source (pick : β → β → β)
    (hpick : ∀ x y, pick x y = x ∨ pick x y = y)
    (a : List (String × β)) {b : List (String × β)} (hb : NodupKeys b)
    {k : String} {v : β} (h : alookup (mergeAL pick a b) k = some v) :
    (k, v) ∈ a ∨ (k, v) ∈ b := by
  rw [alookup_mergeAL pick a b k hb] at h
  cases ha : alookup a k with
  | none =>
    cases hbk : alookup b k with
    | none => rw [ha, hbk] at h; exact absurd h (by simp [combineO])
    | some y =>
      rw [ha, hbk] at h
      simp only [combineO, Option.some.injEq] at h
      exact Or.inr (mem_of_alookup_eq_some (h ▸ hbk))
  | some x =>
    cases hbk : alookup b k with
    | none =>
      rw [ha, hbk] at h
      simp only [combineO, Option.some.injEq] at h
      exact Or.inl (mem_of_alookup_eq_some (h ▸ ha))
    | some y =>
      rw [ha, hbk] at h
      simp only [combineO, Option.some.injEq] at h
      rcases hpick x y with hp | hp
      · exact Or.inl (mem_of_alookup_eq_some ((h ▸ hp) ▸ ha))
      · exact Or.inr (mem_of_alookup_eq_some ((h ▸ hp) ▸ hbk))

/-- Commutativity of the merged lookup, given a commuting conflict rule on the
entries actually present. -/
theorem mergeAL_lookup_comm (pick : β → β → β) {a b : List (String × β)}
    (ha : NodupKeys a) (hb : NodupKeys b)
    (hpick : ∀ k x y, alookup a k = some x → alookup b k = some y →
      pick x y = pick y x) (k : String) :
    alookup (mergeAL pick a b) k = alookup (mergeAL pick b a) k := by
  rw [alookup_mergeAL pick a b k hb, alookup_mergeAL pick b a k ha]
  cases hx : alookup a k with
  | none => cases hy : alookup b k <;> rfl
  | some x =>
    cases hy : alookup b k with
    | none => rfl
    | some y => simp only [combineO, hpick k x y hx hy]

end MergeALLemmas

/-! ## Characterizing `VectorClock.compare` -/

section CompareLemmas

theorem foldl_flags (p q : String → Bool) (l : List String) (i : Bool × Bool) :
    l.foldl (fun fl k => (fl.1 && p k, fl.2 && q k)) i
      = (i.1 && l.all p, i.2 && l.all q) := by
  induction l generalizing i with
  | nil => simp
  | cons k l ih =>
    rw [List.foldl_cons, ih]
    simp [List.all_cons, Bool.and_assoc]

theorem lookupTS_eq_zero_of_not_mem {c : VectorClock} {k : String}
    (h : k ∉ akeys c.timestamps) : c.lookupTS k = 0 := by
  unfold VectorClock.lookupTS agetD
  rw [alookup_eq_none_of_not_mem_akeys h]
  rfl

theorem compare_flag_iff (a b : VectorClock) :
    ((dedupFirst (akeys a.timestamps ++ akeys b.timestamps)).all
        (fun k => ! decide (b.lookupTS k < a.lookupTS k)) = true)
      ↔ leAll a b := by
  rw [List.all_eq_true]
  constructor
  · intro h k
    by_cases hk : k ∈ akeys a.timestamps ++ akeys b.timestamps
    · have hx := h k ((mem_dedupFirst _ k).mpr hk)
      simp only [Bool.not_eq_true', decide_eq_false_iff_not] at hx
      omega
    · rw [List.mem_append] at hk
      push_neg at hk
      rw [lookupTS_eq_zero_of_not_mem hk.1, lookupTS_eq_zero_of_not_mem hk.2]
  · intro h k _
    have hx := h k
    simp only [Bool.not_eq_true', decide_eq_false_iff_not]
    omega

theorem compare_flag_iff_swap (a b : VectorClock) :
    ((dedupFirst (akeys a.timestamps ++ akeys b.timestamps)).all
        (fun k => ! decide (a.lookupTS k < b.lookupTS k)) = true)
      ↔ leAll b a := by
  rw [List.all_eq_true]
  constructor
  · intro h k
    by_cases hk : k ∈ akeys a.timestamps ++ akeys b.timestamps
    · have hx := h k ((mem_dedupFirst _ k).mpr hk)
      simp only [Bool.not_eq_true', decide_eq_false_iff_not] at hx
      omega
    · rw [List.mem_append] at hk
      push_neg at hk
      rw [lookupTS_eq_zero_of_not_mem hk.1, lookupTS_eq_zero_of_not_mem hk.2]
  · intro h k _
    have hx := h k
    simp only [Bool.not_eq_true', decide_eq_false_iff_not]
    omega

theorem compare_unfold (a b : VectorClock) :
    VectorClock.compare a b =
      (if ((dedupFirst (akeys a.timestamps ++ akeys b.timestamps)).all
            (fun k => ! decide (b.lookupTS k < a.lookupTS k)))
          && ! ((dedupFirst (akeys a.timestamps ++ akeys b.timestamps)).all
            (fun k => ! decide (a.lookupTS k < b.lookupTS k))) then -1
       else if ((dedupFirst (akeys a.timestamps ++ akeys b.timestamps)).all
            (fun k => ! decide (a.lookupTS k < b.lookupTS k)))
          && ! ((dedupFirst (akeys a.timestamps ++ akeys b.timestamps)).all
            (fun k => ! decide (b.lookupTS k < a.lookupTS k))) then 1
       else 0) := by
  simp only [VectorClock.compare]
  rw [foldl_flags (fun k => ! decide (b.lookupTS k < a.lookupTS k))
    (fun k => ! decide (a.lookupTS k < b.lookupTS k))]
  simp

theorem compare_eq_neg_one_iff (a b : VectorClock) :
    VectorClock.compare a b = -1 ↔ (leAll a b ∧ ¬ leAll b a) := by
  rw [compare_unfold]
  rcases hL : ((dedupFirst (akeys a.timestamps ++ akeys b.timestamps)).all
      (fun k => ! decide (b.lookupTS k < a.lookupTS k))) with _ | _
    <;> rcases hG : ((dedupFirst (akeys a.timestamps ++ akeys b.timestamps)).all
      (fun k => ! decide (a.lookupTS k < b.lookupTS k))) with _ | _
    <;> rw [← compare_flag_iff a b, ← compare_flag_iff_swap a b]
    <;> simp [hL, hG]

theorem compare_eq_one_iff (a b : VectorClock) :
    VectorClock.compare a b = 1 ↔ (leAll b a ∧ ¬ leAll a b) := by
  rw [compare_unfold]
  rcases hL : ((dedupFirst (akeys a.timestamps ++ akeys b.timestamps)).all
      (fun k => ! decide (b.lookupTS k < a.lookupTS k))) with _ | _
    <;> rcases hG : ((dedupFirst (akeys a.timestamps ++ akeys b.timestamps)).all
      (fun k => ! decide (a.lookupTS k < b.lookupTS k))) with _ | _
    <;> rw [← compare_flag_iff a b, ← compare_flag_iff_swap a b]
    <;> simp [hL, hG]

theorem compare_mem_cases (a b : VectorClock) :
    VectorClock.compare a b = -1 ∨ VectorClock.compare a b = 1
      ∨ VectorClock.compare a b = 0 := by
  rw [compare_unfold]
  rcases ((dedupFirst (akeys a.timestamps ++ akeys b.timestamps)).all
      (fun k => ! decide (b.lookupTS k < a.lookupTS k))) with _ | _
    <;> rcases ((dedupFirst (akeys a.timestamps ++ akeys b.timestamps)).all
      (fun k => ! decide (a.lookupTS k < b.lookupTS k))) with _ | _
    <;> simp

theorem leAll_congr {a a' b b' : VectorClock}
    (ha : ∀ k, a.lookupTS k = a'.lookupTS k)
    (hb : ∀ k, b.lookupTS k = b'.lookupTS k) : leAll a b ↔ leAll a' b' := by
  unfold leAll
  constructor
  · intro h k
    rw [← ha k, ← hb k]
    exact h k
  · intro h k
    rw [ha k, hb k]
    exact h k

/-- `compare` only depends on the clocks' lookup functions (missing keys read
as zero), not on how the key/value lists are arranged. -/
theorem compare_congr {a a' b b' : VectorClock}
    (ha : ∀ k, a.lookupTS k = a'.lookupTS k)
    (hb : ∀ k, b.lookupTS k = b'.lookupTS k) :
    VectorClock.compare a b = VectorClock.compare a' b' := by
  have h1 : leAll a b ↔ leAll a' b' := leAll_congr ha hb
  have h2 : leAll b a ↔ leAll b' a' := leAll_congr hb ha
  rcases compare_mem_cases a b with h | h | h <;> rw [h]
  · have := (compare_eq_neg_one_iff a b).mp h
    exact ((compare_eq_neg_one_iff a' b').mpr ⟨h1.mp this.1, fun c => this.2 (h2.mpr c)⟩).symm
  · have := (compare_eq_one_iff a b).mp h
    exact ((compare_eq_one_iff a' b').mpr ⟨h2.mp this.1, fun c => this.2 (h1.mpr c)⟩).symm
  · rcases compare_mem_cases a' b' with h' | h' | h'
    · have := (compare_eq_neg_one_iff a' b').mp h'
      have hc : VectorClock.compare a b = -1 :=
        (compare_eq_neg_one_iff a b).mpr ⟨h1.mpr this.1, fun c => this.2 (h2.mp c)⟩
      rw [hc] at h
      exact absurd h (by decide)
    · have := (compare_eq_one_iff a' b').mp h'
      have hc : VectorClock.compare a b = 1 :=
        (compare_eq_one_iff a b).mpr ⟨h2.mpr this.1, fun c => this.2 (h1.mp c)⟩
      rw [hc] at h
      exact absurd h (by decide)
    · rw [h']

end CompareLemmas

/-! ## Commutativity of the per-type conflict rules -/

section PickLemmas

/-- The `(ts, replicaId)` conflict rule commutes whenever the two entries do
not tie with different content. -/
theorem tsPick_comm {β : Type*} (ts : β → Int) (rep : β → String) (x y : β)
    (h : ts x = ts y → rep x = rep y → x = y) :
    (if tsNewer (ts x) (rep x) (ts y) (rep y) then y else x)
      = (if tsNewer (ts y) (rep y) (ts x) (rep x) then x else y) := by
  by_cases he : ts x = ts y ∧ rep x = rep y
  · rw [h he.1 he.2]
  · have hne : ts x = ts y → rep x = rep y → False := fun h1 h2 => he ⟨h1, h2⟩
    rw [tsNewer_flip hne]
    cases tsNewer (ts y) (rep y) (ts x) (rep x) <;> simp

/-- The OR-Map latest-activity rule commutes whenever the two entries do not
tie with different content. -/
theorem latestPick_comm {α : Type*} (x y : ORMapEntry α)
    (h : x.latest = y.latest → x = y) :
    (if x.latest < y.latest then y else x)
      = (if y.latest < x.latest then x else y) := by
  rcases lt_trichotomy x.latest y.latest with hl | hl | hl
  · rw [if_pos hl, if_neg (by omega)]
  · rw [if_neg (by omega), if_neg (by omega), h hl]
  · rw [if_neg (by omega), if_pos hl]

/-- Filters over two lookup-equal maps with pointwise equal predicates have
equal lookups. -/
theorem filter_lookup_congr {β : Type*} {m1 m2 : List (String × β)}
    (h1 : NodupKeys m1) (h2 : NodupKeys m2)
    (hm : ∀ k, alookup m1 k = alookup m2 k)
    {p q : String × β → Bool} (k : String)
    (hpq : ∀ v, p (k, v) = q (k, v)) :
    alookup (m1.filter p) k = alookup (m2.filter q) k := by
  rw [alookup_filter h1 p k, alookup_filter h2 q k, hm k]
  cases alookup m2 k with
  | none => rfl
  | some v => simp [hpq v]

theorem rgaLe_total {α : Type*} (x y : RGAElement α) : rgaLe x y ∨ rgaLe y x := by
  unfold rgaLe posLeB
  cases h : strLt y.position x.position with
  | false => exact Or.inl (by simp)
  | true => exact Or.inr (by simp [strLt_asymm h])

theorem rgaLe_trans {α : Type*} (x y z : RGAElement α)
    (hxy : rgaLe x y) (hyz : rgaLe y z) : rgaLe x z := by
  unfold rgaLe posLeB at hxy hyz ⊢
  have h1 : strLt y.position x.position = false := by
    cases h : strLt y.position x.position with
    | false => rfl
    | true => rw [h] at hxy; exact absurd hxy (by simp)
  have h2 : strLt z.position y.position = false := by
    cases h : strLt z.position y.position with
    | false => rfl
    | true => rw [h] at hyz; exact absurd hyz (by simp)
  cases hzx : strLt z.position x.position with
  | false => simp
  | true =>
    exfalso
    cases hxy' : strLt x.position y.position with
    | true =>
      have := strLt_trans hzx hxy'
      rw [this] at h2
      exact absurd h2 (by simp)
    | false =>
      have hxeq : x.position = y.position := strLt_conn hxy' h1
      rw [hxeq] at hzx
      rw [hzx] at h2
      exact absurd h2 (by simp)

/-- Two strictly decreasing-free sorted permutations of each other are equal
(uniqueness of sorting, for an asymmetric relation — here: strictly increasing
position strings). -/
theorem eq_of_perm_of_pairwise_asymm {γ : Type*} {R : γ → γ → Prop}
    (hasymm : ∀ x y, R x y → ¬ R y x) :
    ∀ {l₁ l₂ : List γ}, l₁.Perm l₂ → l₁.Pairwise R → l₂.Pairwise R → l₁ = l₂ := by
  intro l₁
  induction l₁ with
  | nil =>
    intro l₂ hp _ _
    exact (hp.nil_eq).symm ▸ rfl
  | cons x xs ih =>
    intro l₂ hp h1 h2
    cases l₂ with
    | nil => exact absurd hp.symm.nil_eq (by simp)
    | cons y ys =>
      by_cases hxy : x = y
      · subst hxy
        rw [ih (hp.cons_inv) (List.Pairwise.of_cons h1) (List.Pairwise.of_cons h2)]
      · exfalso
        have hx2 : x ∈ y :: ys := hp.mem_iff.mp (List.mem_cons_self x xs)
        have hy1 : y ∈ x :: xs := hp.mem_iff.mpr (List.mem_cons_self y ys)
        have hxys : x ∈ ys := by
          rcases List.mem_cons.mp hx2 with h | h
          · exact absurd h hxy
          · exact h
        have hyxs : y ∈ xs := by
          rcases List.mem_cons.mp hy1 with h | h
          · exact absurd h.symm hxy
          · exact h
        have hR1 : R x y := (List.pairwise_cons.mp h1).1 y hyxs
        have hR2 : R y x := (List.pairwise_cons.mp h2).1 x hxys
        exact hasymm x y hR1 hR2

end PickLemmas

/-! ## Per-type merge commutativity -/

section MergeComm

theorem lww_merge_comm {α : Type*} (a b : LWWRegister α)
    (h : a.timestamp = b.timestamp → a.replicaId = b.replicaId → a = b) :
    a.merge b = b.merge a := by
  unfold LWWRegister.merge
  rcases lt_trichotomy a.timestamp b.timestamp with ht | ht | ht
  · rw [if_neg (show ¬ b.timestamp < a.timestamp by omega), if_pos ht, if_pos ht]
  · rw [if_neg (show ¬ b.timestamp < a.timestamp by omega),
      if_neg (show ¬ a.timestamp < b.timestamp by omega),
      if_neg (show ¬ a.timestamp < b.timestamp by omega),
      if_neg (show ¬ b.timestamp < a.timestamp by omega)]
    cases hlt : strLt b.replicaId a.replicaId with
    | true =>
      rw [if_pos rfl, strLt_asymm hlt, if_neg (by simp)]
    | false =>
      rw [if_neg (by simp)]
      cases hlt' : strLt a.replicaId b.replicaId with
      | true => rw [if_pos rfl]
      | false =>
        rw [if_neg (by simp), h ht (strLt_conn hlt' hlt)]
  · rw [if_pos ht, if_neg (show ¬ a.timestamp < b.timestamp by omega), if_pos ht]

theorem gset_merge_comm {α : Type*} [DecidableEq α] (a b : GSet α) (x : α) :
    (a.merge b).has x = (b.merge a).has x := by
  unfold GSet.merge GSet.has
  refine decide_eq_decide.mpr ?_
  rw [mem_dedupFirst, mem_dedupFirst, List.mem_append, List.mem_append]
  tauto

theorem twoPhaseSet_merge_comm {α : Type*} [DecidableEq α] (a b : TwoPhaseSet α)
    (x : α) : (a.merge b).has x = (b.merge a).has x := by
  unfold TwoPhaseSet.merge TwoPhaseSet.has
  have h1 : decide (x ∈ dedupFirst (a.additions ++ b.additions))
      = decide (x ∈ dedupFirst (b.additions ++ a.additions)) := by
    refine decide_eq_decide.mpr ?_
    rw [mem_dedupFirst, mem_dedupFirst, List.mem_append, List.mem_append]
    tauto
  have h2 : decide (x ∈ dedupFirst (a.removals ++ b.removals))
      = decide (x ∈ dedupFirst (b.removals ++ a.removals)) := by
    refine decide_eq_decide.mpr ?_
    rw [mem_dedupFirst, mem_dedupFirst, List.mem_append, List.mem_append]
    tauto
  rw [h1, h2]

theorem orMap_merge_comm {α : Type*} (a b : ORMap α)
    (ha : NodupKeys a.entries) (hb : NodupKeys b.entries)
    (hne : NoLatestTies a.entries b.entries) (k : String) :
    (a.merge b).get k = (b.merge a).get k := by
  have hE : ∀ k, alookup (mergeAL (fun me oe => if me.latest < oe.latest then oe else me)
        a.entries b.entries) k
      = alookup (mergeAL (fun me oe => if me.latest < oe.latest then oe else me)
        b.entries a.entries) k := by
    intro k
    refine mergeAL_lookup_comm _ ha hb ?_ k
    intro k x y hx hy
    exact latestPick_comm x y
      (hne (k, x) (mem_of_alookup_eq_some hx) (k, y) (mem_of_alookup_eq_some hy) rfl)
  simp only [ORMap.merge, ORMap.get, hE k]

theorem pnCounter_merge_comm (a b : PNCounter)
    (hai : NodupKeys a.increments) (hbi : NodupKeys b.increments)
    (had : NodupKeys a.decrements) (hbd : NodupKeys b.decrements) :
    (a.merge b).value = (b.merge a).value := by
  have hinc : (mergeAL (fun current count => Nat.max current count)
        a.increments b.increments).Perm
      (mergeAL (fun current count => Nat.max current count)
        b.increments a.increments) :=
    perm_of_alookup_eq (nodupKeys_mergeAL _ _ _ hai) (nodupKeys_mergeAL _ _ _ hbi)
      (mergeAL_lookup_comm _ hai hbi (fun _ x y _ _ => Nat.max_comm x y))
  have hdec : (mergeAL (fun current count => Nat.max current count)
        a.decrements b.decrements).Perm
      (mergeAL (fun current count => Nat.max current count)
        b.decrements a.decrements) :=
    perm_of_alookup_eq (nodupKeys_mergeAL _ _ _ had) (nodupKeys_mergeAL _ _ _ hbd)
      (mergeAL_lookup_comm _ had hbd (fun _ x y _ _ => Nat.max_comm x y))
  simp only [PNCounter.merge, PNCounter.value]
  rw [(hinc.map Prod.snd).sum_eq, (hdec.map Prod.snd).sum_eq]

theorem tombstoneSet_merge_comm {α : Type*} (a b : TombstoneSet α)
    (hae : NodupKeys a.elements) (hbe : NodupKeys b.elements)
    (hat : NodupKeys a.tombstones) (hbt : NodupKeys b.tombstones)
    (hne : NoTsTies (fun e => e.timestamp) (fun e => e.replicaId)
      a.elements b.elements)
    (hnt : NoTsTies (fun t => t.timestamp) (fun t => t.replicaId)
      a.tombstones b.tombstones)
    (id : String) :
    (a.merge b).get id = (b.merge a).get id
      ∧ (a.merge b).has id = (b.merge a).has id := by
  have hE : ∀ k,
      alookup (mergeAL (fun me oe =>
        if tsNewer me.timestamp me.replicaId oe.timestamp oe.replicaId then oe else me)
        a.elements b.elements) k
      = alookup (mergeAL (fun me oe =>
        if tsNewer me.timestamp me.replicaId oe.timestamp oe.replicaId then oe else me)
        b.elements a.elements) k := by
    intro k
    refine mergeAL_lookup_comm _ hae hbe ?_ k
    intro k x y hx hy
    exact tsPick_comm (fun e => e.timestamp) (fun e => e.replicaId) x y
      (hne (k, x) (mem_of_alookup_eq_some hx) (k, y) (mem_of_alookup_eq_some hy) rfl)
  have hT : ∀ k,
      alookup (mergeAL (fun mt ot =>
        if tsNewer mt.timestamp mt.replicaId ot.timestamp ot.replicaId then ot else mt)
        a.tombstones b.tombstones) k
      = alookup (mergeAL (fun mt ot =>
        if tsNewer mt.timestamp mt.replicaId ot.timestamp ot.replicaId then ot else mt)
        b.tombstones a.tombstones) k := by
    intro k
    refine mergeAL_lookup_comm _ hat hbt ?_ k
    intro k x y hx hy
    exact tsPick_comm (fun t => t.timestamp) (fun t => t.replicaId) x y
      (hnt (k, x) (mem_of_alookup_eq_some hx) (k, y) (mem_of_alookup_eq_some hy) rfl)
  have hndE1 := nodupKeys_mergeAL (fun me oe : TSElem α =>
    if tsNewer me.timestamp me.replicaId oe.timestamp oe.replicaId then oe else me)
    a.elements b.elements hae
  have hndE2 := nodupKeys_mergeAL (fun me oe : TSElem α =>
    if tsNewer me.timestamp me.replicaId oe.timestamp oe.replicaId then oe else me)
    b.elements a.elements hbe
  have hndT1 := nodupKeys_mergeAL (fun mt ot : TSTomb =>
    if tsNewer mt.timestamp mt.replicaId ot.timestamp ot.replicaId then ot else mt)
    a.tombstones b.tombstones hat
  have hndT2 := nodupKeys_mergeAL (fun mt ot : TSTomb =>
    if tsNewer mt.timestamp mt.replicaId ot.timestamp ot.replicaId then ot else mt)
    b.tombstones a.tombstones hbt
  have hPE : ∀ k,
      alookup ((mergeAL (fun me oe =>
        if tsNewer me.timestamp me.replicaId oe.timestamp oe.replicaId then oe else me)
        a.elements b.elements).filter (fun p =>
          match alookup (mergeAL (fun mt ot =>
            if tsNewer mt.timestamp mt.replicaId ot.timestamp ot.replicaId then ot else mt)
            a.tombstones b.tombstones) p.1 with
          | some t => ! decide (p.2.timestamp < t.timestamp)
          | none => true)) k
      = alookup ((mergeAL (fun me oe =>
        if tsNewer me.timestamp me.replicaId oe.timestamp oe.replicaId then oe else me)
        b.elements a.elements).filter (fun p =>
          match alookup (mergeAL (fun mt ot =>
            if tsNewer mt.timestamp mt.replicaId ot.timestamp ot.replicaId then ot else mt)
            b.tombstones a.tombstones) p.1 with
          | some t => ! decide (p.2.timestamp < t.timestamp)
          | none => true)) k := by
    intro k
    refine filter_lookup_congr hndE1 hndE2 hE k ?_
    intro v
    simp only
    rw [hT k]
  have hndPE1 := nodupKeys_filter hndE1 (fun p =>
    match alookup (mergeAL (fun mt ot =>
      if tsNewer mt.timestamp mt.replicaId ot.timestamp ot.replicaId then ot else mt)
      a.tombstones b.tombstones) p.1 with
    | some t => ! decide (p.2.timestamp < t.timestamp)
    | none => true)
  have hPT : ∀ k,
      alookup ((mergeAL (fun mt ot =>
        if tsNewer mt.timestamp mt.replicaId ot.timestamp ot.replicaId then ot else mt)
        a.tombstones b.tombstones).filter (fun p =>
          match alookup ((mergeAL (fun me oe =>
            if tsNewer me.timestamp me.replicaId oe.timestamp oe.replicaId then oe else me)
            a.elements b.elements).filter (fun q =>
              match alookup (mergeAL (fun mt ot =>
                if tsNewer mt.timestamp mt.replicaId ot.timestamp ot.replicaId then ot else mt)
                a.tombstones b.tombstones) q.1 with
              | some t => ! decide (q.2.timestamp < t.timestamp)
              | none => true)) p.1 with
          | some e => ! decide (p.2.timestamp < e.timestamp)
          | none => true)) k
      = alookup ((mergeAL (fun mt ot =>
        if tsNewer mt.timestamp mt.replicaId ot.timestamp ot.replicaId then ot else mt)
        b.tombstones a.tombstones).filter (fun p =>
          match alookup ((mergeAL (fun me oe =>
            if tsNewer me.timestamp me.replicaId oe.timestamp oe.replicaId then oe else me)
            b.elements a.elements).filter (fun q =>
              match alookup (mergeAL (fun mt ot =>
                if tsNewer mt.timestamp mt.replicaId ot.timestamp ot.replicaId then ot else mt)
                b.tombstones a.tombstones) q.1 with
              | some t => ! decide (q.2.timestamp < t.timestamp)
              | none => true)) p.1 with
          | some e => ! decide (p.2.timestamp < e.timestamp)
          | none => true)) k := by
    intro k
    refine filter_lookup_congr hndT1 hndT2 hT k ?_
    intro v
    simp only
    rw [hPE k]
  constructor
  · simp only [TombstoneSet.merge, TombstoneSet.get, TombstoneSet.has]
    rw [hPE id, hPT id]
  · simp only [TombstoneSet.merge, TombstoneSet.has]
    rw [hPE id, hPT id]

theorem orderedSet_merge_comm {α : Type*} (a b : OrderedSet α)
    (hae : NodupKeys a.elements) (hbe : NodupKeys b.elements)
    (hne : NoTsTies (fun e => e.timestamp) (fun e => e.replicaId)
      a.elements b.elements)
    (id : String) :
    (a.merge b).get id = (b.merge a).get id
      ∧ (a.merge b).has id = (b.merge a).has id := by
  have hE : ∀ k,
      alookup (mergeAL (fun me oe =>
        if tsNewer me.timestamp me.replicaId oe.timestamp oe.replicaId then oe else me)
        a.elements b.elements) k
      = alookup (mergeAL (fun me oe =>
        if tsNewer me.timestamp me.replicaId oe.timestamp oe.replicaId then oe else me)
        b.elements a.elements) k := by
    intro k
    refine mergeAL_lookup_comm _ hae hbe ?_ k
    intro k x y hx hy
    exact tsPick_comm (fun e => e.timestamp) (fun e => e.replicaId) x y
      (hne (k, x) (mem_of_alookup_eq_some hx) (k, y) (mem_of_alookup_eq_some hy) rfl)
  have hTomb : (id ∈ dedupFirst (a.tombstones ++ b.tombstones))
      ↔ (id ∈ dedupFirst (b.tombstones ++ a.tombstones)) := by
    rw [mem_dedupFirst, mem_dedupFirst, List.mem_append, List.mem_append]
    tauto
  constructor
  · simp only [OrderedSet.merge, OrderedSet.get, hE id]
    by_cases hm : id ∈ dedupFirst (a.tombstones ++ b.tombstones)
    · have hm2 : id ∈ dedupFirst (b.tombstones ++ a.tombstones) := hTomb.mp hm
      simp [hm, hm2]
    · have hm2 : id ∉ dedupFirst (b.tombstones ++ a.tombstones) :=
        fun c => hm (hTomb.mpr c)
      simp [hm, hm2]
  · simp only [OrderedSet.merge, OrderedSet.has, hE id, decide_eq_decide.mpr hTomb]

theorem strict_of_le_ne {p q : String} (hle : posLeB p q = true) (hne : p ≠ q) :
    strLt p q = true := by
  unfold posLeB at hle
  have h1 : strLt q p = false := by
    cases h : strLt q p with
    | false => rfl
    | true => rw [h] at hle; exact absurd hle (by simp)
  cases h2 : strLt p q with
  | true => rfl
  | false => exact absurd (strLt_conn h2 h1) hne

theorem rga_merge_comm {α : Type*} (a b : RGA α)
    (ha : NodupKeys a.elements) (hb : NodupKeys b.elements)
    (hne : NoTsTies (fun e => e.timestamp) (fun e => e.replicaId)
      a.elements b.elements)
    (hpos : DistinctPositions (a.elements ++ b.elements)) :
    (a.merge b).toArray = (b.merge a).toArray := by
  have hpickor : ∀ x y : RGAElement α,
      (if tsNewer x.timestamp x.replicaId y.timestamp y.replicaId then y else x) = x
      ∨ (if tsNewer x.timestamp x.replicaId y.timestamp y.replicaId then y else x) = y := by
    intro x y
    by_cases h : tsNewer x.timestamp x.replicaId y.timestamp y.replicaId = true
    · rw [if_pos h]
      exact Or.inr rfl
    · rw [if_neg h]
      exact Or.inl rfl
  have hlook : ∀ k,
      alookup (mergeAL (fun me oe =>
        if tsNewer me.timestamp me.replicaId oe.timestamp oe.replicaId then oe else me)
        a.elements b.elements) k
      = alookup (mergeAL (fun me oe =>
        if tsNewer me.timestamp me.replicaId oe.timestamp oe.replicaId then oe else me)
        b.elements a.elements) k := by
    intro k
    refine mergeAL_lookup_comm _ ha hb ?_ k
    intro k x y hx hy
    exact tsPick_comm (fun e => e.timestamp) (fun e => e.replicaId) x y
      (hne (k, x) (mem_of_alookup_eq_some hx) (k, y) (mem_of_alookup_eq_some hy) rfl)
  have hnd1 := nodupKeys_mergeAL (fun me oe : RGAElement α =>
    if tsNewer me.timestamp me.replicaId oe.timestamp oe.replicaId then oe else me)
    a.elements b.elements ha
  have hnd2 := nodupKeys_mergeAL (fun me oe : RGAElement α =>
    if tsNewer me.timestamp me.replicaId oe.timestamp oe.replicaId then oe else me)
    b.elements a.elements hb
  have hperm := perm_of_alookup_eq hnd1 hnd2 hlook
  have hsrc1 : ∀ p ∈ (mergeAL (fun me oe : RGAElement α =>
      if tsNewer me.timestamp me.replicaId oe.timestamp oe.replicaId then oe else me)
      a.elements b.elements), p ∈ a.elements ++ b.elements := by
    rintro ⟨k, v⟩ hm
    have hl := alookup_eq_some_of_mem hnd1 hm
    rcases mergeAL_entry_source _ hpickor a.elements hb hl with h | h
    · exact List.mem_append.mpr (Or.inl h)
    · exact List.mem_append.mpr (Or.inr h)
  have hpair1 : (mergeAL (fun me oe : RGAElement α =>
      if tsNewer me.timestamp me.replicaId oe.timestamp oe.replicaId then oe else me)
      a.elements b.elements).Pairwise (fun p q => p.2.position ≠ q.2.position) := by
    have hkeys : (mergeAL (fun me oe : RGAElement α =>
        if tsNewer me.timestamp me.replicaId oe.timestamp oe.replicaId then oe else me)
        a.elements b.elements).Pairwise (fun p q => p.1 ≠ q.1) :=
      List.pairwise_map.mp hnd1
    exact hkeys.imp_of_mem
      (fun hp hq hne' => hpos _ (hsrc1 _ hp) _ (hsrc1 _ hq) hne')
  haveI : IsTotal (RGAElement α) rgaLe := ⟨rgaLe_total⟩
  haveI : IsTrans (RGAElement α) rgaLe := ⟨rgaLe_trans⟩
  have hpairS1 : (List.insertionSort rgaLe ((mergeAL (fun me oe : RGAElement α =>
      if tsNewer me.timestamp me.replicaId oe.timestamp oe.replicaId then oe else me)
      a.elements b.elements).map Prod.snd)).Pairwise
      (fun x y => x.position ≠ y.position) :=
    ((List.perm_insertionSort rgaLe _).pairwise_iff
      (fun h => Ne.symm h)).mpr (List.pairwise_map.mpr hpair1)
  have hstrict1 : (List.insertionSort rgaLe ((mergeAL (fun me oe : RGAElement α =>
      if tsNewer me.timestamp me.replicaId oe.timestamp oe.replicaId then oe else me)
      a.elements b.elements).map Prod.snd)).Pairwise
      (fun x y => strLt x.position y.position = true) :=
    ((List.sorted_insertionSort rgaLe _).and hpairS1).imp
      (fun h => strict_of_le_ne h.1 h.2)
  have hsrc2 : ∀ p ∈ (mergeAL (fun me oe : RGAElement α =>
      if tsNewer me.timestamp me.replicaId oe.timestamp oe.replicaId then oe else me)
      b.elements a.elements), p ∈ a.elements ++ b.elements := by
    intro p hp
    exact hsrc1 p (hperm.mem_iff.mpr hp)
  have hpair2 : (mergeAL (fun me oe : RGAElement α =>
      if tsNewer me.timestamp me.replicaId oe.timestamp oe.replicaId then oe else me)
      b.elements a.elements).Pairwise (fun p q => p.2.position ≠ q.2.position) := by
    have hkeys : (mergeAL (fun me oe : RGAElement α =>
        if tsNewer me.timestamp me.replicaId oe.timestamp oe.replicaId then oe else me)
        b.elements a.elements).Pairwise (fun p q => p.1 ≠ q.1) :=
      List.pairwise_map.mp hnd2
    exact hkeys.imp_of_mem
      (fun hp hq hne' => hpos _ (hsrc2 _ hp) _ (hsrc2 _ hq) hne')
  have hpairS2 : (List.insertionSort rgaLe ((mergeAL (fun me oe : RGAElement α =>
      if tsNewer me.timestamp me.replicaId oe.timestamp oe.replicaId then oe else me)
      b.elements a.elements).map Prod.snd)).Pairwise
      (fun x y => x.position ≠ y.position) :=
    ((List.perm_insertionSort rgaLe _).pairwise_iff
      (fun h => Ne.symm h)).mpr (List.pairwise_map.mpr hpair2)
  have hstrict2 : (List.insertionSort rgaLe ((mergeAL (fun me oe : RGAElement α =>
      if tsNewer me.timestamp me.replicaId oe.timestamp oe.replicaId then oe else me)
      b.elements a.elements).map Prod.snd)).Pairwise
      (fun x y => strLt x.position y.position = true) :=
    ((List.sorted_insertionSort rgaLe _).and hpairS2).imp
      (fun h => strict_of_le_ne h.1 h.2)
  have hperms : (List.insertionSort rgaLe ((mergeAL (fun me oe : RGAElement α =>
      if tsNewer me.timestamp me.replicaId oe.timestamp oe.replicaId then oe else me)
      a.elements b.elements).map Prod.snd)).Perm
      (List.insertionSort rgaLe ((mergeAL (fun me oe : RGAElement α =>
      if tsNewer me.timestamp me.replicaId oe.timestamp oe.replicaId then oe else me)
      b.elements a.elements).map Prod.snd)) :=
    (List.perm_insertionSort rgaLe _).trans
      ((hperm.map Prod.snd).trans (List.perm_insertionSort rgaLe _).symm)
  have heq := eq_of_perm_of_pairwise_asymm
    (R := fun x y : RGAElement α => strLt x.position y.position = true)
    (fun x y h hc => by
      have hf := strLt_asymm h
      rw [hc] at hf
      exact absurd hf (by simp))
    hperms hstrict1 hstrict2
  simp only [RGA.merge, RGA.toArray, RGA.sortedElems]
  rw [heq]

end MergeComm

/-! ## Facade-level helper lemmas -/

section FacadeLemmas

/-- `setWithSync` always succeeds with the slot written and the clock bumped:
the storage write is the infallible memory write and the push is wrapped in
`Effect.catchAll(() => Effect.void)`. -/
theorem setWithSync_eq {V : Type*}
    (push : List (SyncOperation V) → Except SyncError Unit)
    (name : String) (value : V) (replicaId opId : String) (timestamp : Int)
    (s : CollectionState V) :
    setWithSync push name value replicaId opId timestamp s
      = EffResult.ok ⟨aset s.store name value, s.clock.increment replicaId⟩ := by
  simp only [setWithSync]
  cases hp : push [⟨opId, OpType.set, name, some value, timestamp, replicaId,
      s.clock.increment replicaId, none⟩] <;> rfl

theorem sortedElems_length {α : Type*} (r : RGA α) :
    r.sortedElems.length = r.elements.length := by
  unfold RGA.sortedElems
  rw [(List.perm_insertionSort rgaLe _).length_eq, List.length_map]

theorem removeAt_out_of_bounds {α : Type*} (r : RGA α) (index : Int)
    (h : index < 0 ∨ (r.elements.length : Int) ≤ index) : r.removeAt index = r := by
  unfold RGA.removeAt
  rw [if_pos]
  rcases h with h | h
  · exact Or.inl h
  · right
    rw [sortedElems_length]
    exact h

end FacadeLemmas

/-! ## The claims -/

/-- C1 (amended): merge is commutative as projected by the observation
functions, except at exact conflict ties.  Unconditionally for G-Set and
2P-Set (membership) — their `values()` arrays may list the same elements in
different orders — and the claim holds for LWW-Register, Tombstone Set,
Ordered Set, OR-Map and RGA provided entries competing for the same slot never
tie on the type's resolution key (`(ts, replicaId)`, latest-activity
timestamp) with different content, and (for RGA's `toArray`) distinct ids
carry distinct positions; at such ties merge keeps the left operand's entry
and commutativity fails.  The PN-Counter's `value()` commutes
unconditionally. -/
theorem crdt_merge_commutative :
    (∀ (α : Type) (a b : LWWRegister α),
      (a.timestamp = b.timestamp → a.replicaId = b.replicaId → a = b) →
      (a.merge b).get = (b.merge a).get)
    ∧ (∀ (α : Type) [DecidableEq α] (a b : GSet α) (x : α),
      (a.merge b).has x = (b.merge a).has x)
    ∧ (∀ (α : Type) [DecidableEq α] (a b : TwoPhaseSet α) (x : α),
      (a.merge b).has x = (b.merge a).has x)
    ∧ (∀ (α : Type) (a b : TombstoneSet α),
      NodupKeys a.elements → NodupKeys b.elements →
      NodupKeys a.tombstones → NodupKeys b.tombstones →
      NoTsTies (fun e => e.timestamp) (fun e => e.replicaId)
        a.elements b.elements →
      NoTsTies (fun t => t.timestamp) (fun t => t.replicaId)
        a.tombstones b.tombstones →
      ∀ id, (a.merge b).get id = (b.merge a).get id
        ∧ (a.merge b).has id = (b.merge a).has id)
    ∧ (∀ (α : Type) (a b : OrderedSet α),
      NodupKeys a.elements → NodupKeys b.elements →
      NoTsTies (fun e => e.timestamp) (fun e => e.replicaId)
        a.elements b.elements →
      ∀ id, (a.merge b).get id = (b.merge a).get id
        ∧ (a.merge b).has id = (b.merge a).has id)
    ∧ (∀ (α : Type) (a b : ORMap α),
      NodupKeys a.entries → NodupKeys b.entries →
      NoLatestTies a.entries b.entries →
      ∀ k, (a.merge b).get k = (b.merge a).get k)
    ∧ (∀ a b : PNCounter,
      NodupKeys a.increments → NodupKeys b.increments →
      NodupKeys a.decrements → NodupKeys b.decrements →
      (a.merge b).value = (b.merge a).value)
    ∧ (∀ (α : Type) (a b : RGA α),
      NodupKeys a.elements → NodupKeys b.elements →
      NoTsTies (fun e => e.timestamp) (fun e => e.replicaId)
        a.elements b.elements →
      DistinctPositions (a.elements ++ b.elements) →
      (a.merge b).toArray = (b.merge a).toArray) := by
  refine ⟨?_, ?_, ?_, ?_, ?_, ?_, ?_, ?_⟩
  · intro α a b h
    rw [LWWRegister.get, LWWRegister.get, lww_merge_comm a b h]
  · intro α _ a b x
    exact gset_merge_comm a b x
  · intro α _ a b x
    exact twoPhaseSet_merge_comm a b x
  · intro α a b h1 h2 h3 h4 h5 h6 id
    exact tombstoneSet_merge_comm a b h1 h2 h3 h4 h5 h6 id
  · intro α a b h1 h2 h3 id
    exact orderedSet_merge_comm a b h1 h2 h3 id
  · intro α a b h1 h2 h3 k
    exact orMap_merge_comm a b h1 h2 h3 k
  · intro a b h1 h2 h3 h4
    exact pnCounter_merge_comm a b h1 h2 h3 h4
  · intro α a b h1 h2 h3 h4
    exact rga_merge_comm a b h1 h2 h3 h4

/-- C1 counterexample: two OR-Map maps holding the same key with equal latest
activity (`added` timestamps both 5) but different values observe different
results under the two merge orders — the merge keeps the left operand's entry
on a tie, so merge is not commutative for all values as the claim states. -/
theorem crdt_merge_commutative_counterexample :
    (ORMap.merge (ORMap.mk [("k", ORMapEntry.mk "v1" 5 none)])
        (ORMap.mk [("k", ORMapEntry.mk "v2" 5 none)])).get "k"
      ≠ (ORMap.merge (ORMap.mk [("k", ORMapEntry.mk "v2" 5 none)])
        (ORMap.mk [("k", ORMapEntry.mk "v1" 5 none)])).get "k" := by
  decide

/-- C1 witness: the amended commutativity applied at concrete tie-free
values of each hypothesis-bearing conjunct. -/
theorem crdt_merge_commutative_witness :
    ((LWWRegister.mk "u" 1 "a" : LWWRegister String).merge
        (LWWRegister.mk "w" 2 "b")).get
      = ((LWWRegister.mk "w" 2 "b" : LWWRegister String).merge
        (LWWRegister.mk "u" 1 "a")).get
    ∧ ((TombstoneSet.mk [("x", TSElem.mk "v" 1 "r1")] []
          : TombstoneSet String).merge
        (TombstoneSet.mk [("x", TSElem.mk "w" 2 "r2")]
          [("y", TSTomb.mk 3 "r2")])).get "x"
      = ((TombstoneSet.mk [("x", TSElem.mk "w" 2 "r2")]
          [("y", TSTomb.mk 3 "r2")] : TombstoneSet String).merge
        (TombstoneSet.mk [("x", TSElem.mk "v" 1 "r1")] [])).get "x"
    ∧ ((OrderedSet.mk [("x", TSElem.mk "v" 1 "r1")] ["t"]
          : OrderedSet String).merge
        (OrderedSet.mk [("x", TSElem.mk "w" 2 "r2")] [])).get "x"
      = ((OrderedSet.mk [("x", TSElem.mk "w" 2 "r2")] []
          : OrderedSet String).merge
        (OrderedSet.mk [("x", TSElem.mk "v" 1 "r1")] ["t"])).get "x"
    ∧ ((ORMap.mk [("k", ORMapEntry.mk "a" 1 none)] : ORMap String).merge
        (ORMap.mk [("k", ORMapEntry.mk "b" 2 none)])).get "k"
      = ((ORMap.mk [("k", ORMapEntry.mk "b" 2 none)] : ORMap String).merge
        (ORMap.mk [("k", ORMapEntry.mk "a" 1 none)])).get "k"
    ∧ ((PNCounter.mk [("r1", 5)] [("r1", 2)]).merge
        (PNCounter.mk [("r2", 3)] [("r2", 1)])).value
      = ((PNCounter.mk [("r2", 3)] [("r2", 1)]).merge
        (PNCounter.mk [("r1", 5)] [("r1", 2)])).value
    ∧ ((RGA.mk [("i1", RGAElement.mk "i1" "a" 1 "r1" "0.0")]
          : RGA String).merge
        (RGA.mk [("i2", RGAElement.mk "i2" "b" 2 "r2" "0.1")])).toArray
      = ((RGA.mk [("i2", RGAElement.mk "i2" "b" 2 "r2" "0.1")]
          : RGA String).merge
        (RGA.mk [("i1", RGAElement.mk "i1" "a" 1 "r1" "0.0")])).toArray := by
  refine ⟨?_, ?_, ?_, ?_, ?_, ?_⟩
  · exact crdt_merge_commutative.1 String _ _ (by decide)
  · exact (crdt_merge_commutative.2.2.2.1 String _ _ (by decide) (by decide)
      (by decide) (by decide) (by decide) (by decide) "x").1
  · exact (crdt_merge_commutative.2.2.2.2.1 String _ _ (by decide) (by decide)
      (by decide) "x").1
  · exact crdt_merge_commutative.2.2.2.2.2.1 String _ _ (by decide) (by decide)
      (by decide) "k"
  · exact crdt_merge_commutative.2.2.2.2.2.2.1 _ _ (by decide) (by decide)
      (by decide) (by decide)
  · exact crdt_merge_commutative.2.2.2.2.2.2.2 String _ _ (by decide)
      (by decide) (by decide) (by decide)

/-- C2: the claimed position contract `P < X < Q` fails on the code.  The RGA
sorts by lexicographic string comparison of the dotted-decimal positions, but
`calculatePositionAfter` increments the last component numerically: after the
position `"0.9"` it produces `"0.10"`, which sorts lexicographically *before*
`"0.9"` — so a position generated after the current maximum (e.g. on the 11th
`append`) does not sort strictly after it.  The before-first one-sided case
also degenerates: `calculatePositionBefore "0.0"` returns `"0.0"` itself, not
a strictly smaller position. -/
theorem rga_position_generation_violates_order :
    RGA.calculatePositionAfter "0.9" = "0.10"
    ∧ strLt "0.10" "0.9" = true
    ∧ RGA.generatePositionBetween (some "0.9") none = "0.10"
    ∧ RGA.calculatePositionBefore "0.0" = "0.0" := by
  exact ⟨by decide, by decide, by decide, by decide⟩

/-- C3: for a batch operation that is not skipped (not a loopback and not
comparing `Less` against the local clock at that point), the local vector
clock immediately afterwards equals exactly the operation's clock — an
overwrite, not a componentwise max — including for reconcile operations
carrying a `serverClock` (which is itself overwritten on the next line). -/
theorem applyOperations_clock_overwrite :
    ∀ (V : Type) (replicaId : String) (s : ReplicaState V)
      (pre : List (SyncOperation V)) (op : SyncOperation V),
      op.replicaId ≠ replicaId →
      VectorClock.compare op.vectorClock
        (applyOperations replicaId s pre).clock ≠ -1 →
      (applyOperations replicaId s (pre ++ [op])).clock = op.vectorClock := by
  intro V replicaId s pre op h1 h2
  have hsplit : applyOperations replicaId s (pre ++ [op])
      = applyOp replicaId (applyOperations replicaId s pre) op := by
    unfold applyOperations
    rw [List.foldl_append]
    rfl
  rw [hsplit]
  unfold applyOp
  rw [if_neg h1, if_neg h2]

/-- C3 witness. -/
theorem applyOperations_clock_overwrite_witness :
    (applyOperations "r1" (⟨[], VectorClock.empty⟩ : ReplicaState Unit)
        [⟨"id1", OpType.set, "k", some (), 1, "r2",
          VectorClock.mk [("r2", 1)], none⟩]).clock
      = VectorClock.mk [("r2", 1)] :=
  applyOperations_clock_overwrite Unit "r1" ⟨[], VectorClock.empty⟩ []
    ⟨"id1", OpType.set, "k", some (), 1, "r2", VectorClock.mk [("r2", 1)], none⟩
    (by decide) (by decide)

/-- C4: an operation whose `replicaId` equals the local replica's id is
skipped: it leaves the state (storage and clock) unchanged, and removing it
from any batch does not change the result of `applyOperations`. -/
theorem applyOperations_skips_own :
    ∀ (V : Type) (replicaId : String) (s : ReplicaState V)
      (pre post : List (SyncOperation V)) (op : SyncOperation V),
      op.replicaId = replicaId →
      applyOp replicaId (applyOperations replicaId s pre) op
          = applyOperations replicaId s pre
      ∧ applyOperations replicaId s (pre ++ op :: post)
          = applyOperations replicaId s (pre ++ post) := by
  intro V replicaId s pre post op h
  have hstep : ∀ t : ReplicaState V, applyOp replicaId t op = t := by
    intro t
    unfold applyOp
    rw [if_pos h]
  refine ⟨hstep _, ?_⟩
  unfold applyOperations
  rw [List.foldl_append, List.foldl_append, List.foldl_cons, hstep]

/-- C4 witness. -/
theorem applyOperations_skips_own_witness :
    applyOp "r1" (applyOperations "r1"
        (⟨[("k", some ())], VectorClock.empty⟩ : ReplicaState Unit) [])
        ⟨"id1", OpType.delete, "k", none, 1, "r1",
          VectorClock.mk [("r1", 1)], none⟩
      = applyOperations "r1" ⟨[("k", some ())], VectorClock.empty⟩ []
    ∧ applyOperations "r1"
        (⟨[("k", some ())], VectorClock.empty⟩ : ReplicaState Unit)
        ([] ++ ⟨"id1", OpType.delete, "k", none, 1, "r1",
          VectorClock.mk [("r1", 1)], none⟩ :: [])
      = applyOperations "r1" ⟨[("k", some ())], VectorClock.empty⟩ ([] ++ []) :=
  applyOperations_skips_own Unit "r1" ⟨[("k", some ())], VectorClock.empty⟩ [] []
    ⟨"id1", OpType.delete, "k", none, 1, "r1", VectorClock.mk [("r1", 1)], none⟩
    (by decide)

/-- C5: `LWWRegister.merge` returns the operand with the larger timestamp and
breaks exact timestamp ties towards the lexicographically larger replica id;
in particular `merge(LWW("v1",1000,"a"), LWW("v2",1000,"b"))` and the flipped
merge both observe `"v2"`. -/
theorem lww_register_merge_semantics :
    (∀ (α : Type) (a b : LWWRegister α), b.timestamp < a.timestamp →
      a.merge b = a)
    ∧ (∀ (α : Type) (a b : LWWRegister α), a.timestamp < b.timestamp →
      a.merge b = b)
    ∧ (∀ (α : Type) (a b : LWWRegister α), a.timestamp = b.timestamp →
      strLt b.replicaId a.replicaId = true → a.merge b = a)
    ∧ (∀ (α : Type) (a b : LWWRegister α), a.timestamp = b.timestamp →
      strLt a.replicaId b.replicaId = true → a.merge b = b)
    ∧ ((LWWRegister.mk "v1" 1000 "a" : LWWRegister String).merge
        (LWWRegister.mk "v2" 1000 "b")).value = "v2"
    ∧ ((LWWRegister.mk "v2" 1000 "b" : LWWRegister String).merge
        (LWWRegister.mk "v1" 1000 "a")).value = "v2" := by
  refine ⟨?_, ?_, ?_, ?_, by decide, by decide⟩
  · intro α a b h
    unfold LWWRegister.merge
    rw [if_pos h]
  · intro α a b h
    unfold LWWRegister.merge
    rw [if_neg (show ¬ b.timestamp < a.timestamp by omega), if_pos h]
  · intro α a b ht h
    unfold LWWRegister.merge
    rw [if_neg (show ¬ b.timestamp < a.timestamp by omega),
      if_neg (show ¬ a.timestamp < b.timestamp by omega), h, if_pos rfl]
  · intro α a b ht h
    unfold LWWRegister.merge
    rw [if_neg (show ¬ b.timestamp < a.timestamp by omega),
      if_neg (show ¬ a.timestamp < b.timestamp by omega),
      strLt_asymm h, if_neg (by simp)]

/-- C5 witness. -/
theorem lww_register_merge_semantics_witness :
    (LWWRegister.mk "x" 5 "r" : LWWRegister String).merge
        (LWWRegister.mk "y" 3 "s") = LWWRegister.mk "x" 5 "r"
    ∧ (LWWRegister.mk "p" 7 "a" : LWWRegister String).merge
        (LWWRegister.mk "q" 7 "b") = LWWRegister.mk "q" 7 "b" :=
  ⟨lww_register_merge_semantics.1 String _ _ (by decide),
    lww_register_merge_semantics.2.2.2.1 String _ _ (by decide) (by decide)⟩

/-- C6 counterexample: the clock `{r1: 0}` has one entry (it is non-empty),
yet `empty().compare` on it returns `0` (Equal/Concurrent), not `-1` (Less) —
a missing key and an explicit zero entry are indistinguishable to `compare`.
This falsifies the claim that the empty clock is `Less` than every clock
whose timestamp map has at least one entry. -/
theorem vectorClock_empty_compare_counterexample :
    (VectorClock.mk [("r1", 0)]).timestamps.length = 1
    ∧ VectorClock.compare VectorClock.empty (VectorClock.mk [("r1", 0)]) = 0 := by
  exact ⟨rfl, by decide⟩

/-- C6 (amended): the empty clock compares `Equal` (0) to itself; the empty
clock compares `Less` (-1) to every clock with at least one *strictly
positive* entry (a non-empty clock whose entries are all zero compares
`Equal`); and a missing key behaves exactly like an explicit zero entry in
every comparison, on either side. -/
theorem vectorClock_empty_compare :
    VectorClock.compare VectorClock.empty VectorClock.empty = 0
    ∧ (∀ c : VectorClock, NodupKeys c.timestamps →
      (∃ p ∈ c.timestamps, 0 < p.2) →
      VectorClock.compare VectorClock.empty c = -1)
    ∧ (∀ a b : VectorClock, ∀ k, k ∉ akeys a.timestamps →
      VectorClock.compare (VectorClock.mk (aset a.timestamps k 0)) b
          = VectorClock.compare a b
      ∧ VectorClock.compare b (VectorClock.mk (aset a.timestamps k 0))
          = VectorClock.compare b a) := by
  refine ⟨by decide, ?_, ?_⟩
  · rintro c hnd ⟨p, hp, hpos⟩
    refine (compare_eq_neg_one_iff _ _).mpr ⟨?_, ?_⟩
    · intro k
      exact Nat.zero_le _
    · intro hle
      have h1 : c.lookupTS p.1 = p.2 := by
        unfold VectorClock.lookupTS agetD
        rw [alookup_eq_some_of_mem hnd (by rw [Prod.mk.eta]; exact hp)]
        rfl
      have h2 := hle p.1
      have h3 : VectorClock.empty.lookupTS p.1 = 0 := rfl
      rw [h1, h3] at h2
      omega
  · intro a b k hk
    have hl : ∀ k', (VectorClock.mk (aset a.timestamps k 0)).lookupTS k'
        = a.lookupTS k' := by
      intro k'
      by_cases h : k' = k
      · subst h
        unfold VectorClock.lookupTS agetD
        rw [alookup_aset_self, alookup_eq_none_of_not_mem_akeys hk]
        rfl
      · unfold VectorClock.lookupTS agetD
        rw [alookup_aset_ne _ _ _ h]
    exact ⟨compare_congr hl (fun _ => rfl), compare_congr (fun _ => rfl) hl⟩

/-- C6 witness. -/
theorem vectorClock_empty_compare_witness :
    VectorClock.compare VectorClock.empty (VectorClock.mk [("r1", 2)]) = -1
    ∧ VectorClock.compare (VectorClock.mk (aset [] "k" 0))
        (VectorClock.mk [("r1", 1)])
      = VectorClock.compare (VectorClock.mk []) (VectorClock.mk [("r1", 1)]) :=
  ⟨vectorClock_empty_compare.2.1 (VectorClock.mk [("r1", 2)]) (by decide)
      (by decide),
    (vectorClock_empty_compare.2.2 (VectorClock.mk []) (VectorClock.mk [("r1", 1)])
      "k" (by decide)).1⟩

/-- C7: starting from the empty 2P-Set, `add "x"; remove "x"; add "x"` leaves
`has "x" = false` and `values() = []`; in general `add e` is refused (the set
is returned unchanged) whenever `e` is in the removals set. -/
theorem twoPhaseSet_blocks_resurrection :
    ((((TwoPhaseSet.empty : TwoPhaseSet String).add "x").remove "x").add "x").has "x"
        = false
    ∧ ((((TwoPhaseSet.empty : TwoPhaseSet String).add "x").remove "x").add "x").values
        = []
    ∧ (∀ (α : Type) [DecidableEq α] (s : TwoPhaseSet α) (e : α),
      e ∈ s.removals → s.add e = s) := by
  refine ⟨by decide, by decide, ?_⟩
  intro α _ s e h
  unfold TwoPhaseSet.add
  rw [if_pos h]

/-- C7 witness. -/
theorem twoPhaseSet_blocks_resurrection_witness :
    (TwoPhaseSet.mk ["x"] ["x"] : TwoPhaseSet String).add "x"
      = TwoPhaseSet.mk ["x"] ["x"] :=
  twoPhaseSet_blocks_resurrection.2.2 String _ "x" (by decide)

/-- C8: a local write through a collection facade never fails due to a remote
error: for *every* possible outcome of `sync.push` — including failure with
any `SyncError` — `setWithSync` succeeds, the storage slot is written and the
local vector clock is incremented at the local replica. -/
theorem setWithSync_never_fails_remotely :
    ∀ (V : Type) (push : List (SyncOperation V) → Except SyncError Unit)
      (name : String) (value : V) (replicaId opId : String) (timestamp : Int)
      (s : CollectionState V),
      setWithSync push name value replicaId opId timestamp s
        = EffResult.ok ⟨aset s.store name value, s.clock.increment replicaId⟩ := by
  intro V push name value replicaId opId timestamp s
  exact setWithSync_eq push name value replicaId opId timestamp s

/-- C9: evidence for the storage-get divergence.  IndexedDB's `get` fails in
the typed error channel (`Effect.fail`) on an absent key and yields the
stored value on a present key, as the claim states; but the memory backend's
`get` *throws* the `StorageError` inside `Effect.sync`, which surfaces as a
defect (fiber death), not a recoverable typed failure. -/
theorem storage_get_absent_key :
    memoryGet ([] : List (String × String)) "missing"
        = EffResult.die ⟨"Key not found: missing"⟩
    ∧ memoryGet [("k", "v")] "k" = EffResult.ok "v"
    ∧ indexedDBGet ([] : List (String × String)) "missing"
        = EffResult.fail ⟨"Key not found: missing"⟩
    ∧ indexedDBGet [("k", "v")] "k" = EffResult.ok "v" := by
  exact ⟨by decide, by decide, by decide, by decide⟩

/-- C10 counterexample: removing index 5 from a 1-element RGA collection
*succeeds* — the facade returns `ok` with the RGA stored unchanged and the
clock incremented (a sync operation is even emitted) — it does not fail with
a CRDT error as the claim states. -/
theorem rga_removeAt_counterexample :
    rgaCollectionRemoveAt (γ := String) (fun _ => Except.ok ()) "list" 5 "r1"
        "op1" 2000
        ⟨[("list", RGA.mk [("e1", RGAElement.mk "e1" "x" 1000 "r1" "0.0")])],
          VectorClock.empty⟩
      = EffResult.ok
          ⟨[("list", RGA.mk [("e1", RGAElement.mk "e1" "x" 1000 "r1" "0.0")])],
            VectorClock.mk [("r1", 1)]⟩ := by
  decide

/-- C10 (amended): an out-of-bounds index (negative or ≥ length) makes
`RGA.removeAt` return the RGA unchanged, and the facade `removeAt` then
*succeeds silently*, re-writing the unchanged RGA and bumping the clock —
no typed CRDT failure is surfaced. -/
theorem rga_removeAt_out_of_bounds_silent :
    (∀ (α : Type) (r : RGA α) (index : Int),
      index < 0 ∨ (r.elements.length : Int) ≤ index → r.removeAt index = r)
    ∧ (∀ (γ : Type) (push : List (SyncOperation (RGA γ)) → Except SyncError Unit)
      (name : String) (index : Int) (replicaId opId : String) (timestamp : Int)
      (s : CollectionState (RGA γ)) (r : RGA γ),
      alookup s.store name = some r →
      index < 0 ∨ (r.elements.length : Int) ≤ index →
      rgaCollectionRemoveAt push name index replicaId opId timestamp s
        = EffResult.ok ⟨aset s.store name r, s.clock.increment replicaId⟩) := by
  refine ⟨fun α r index h => removeAt_out_of_bounds r index h, ?_⟩
  intro γ push name index replicaId opId timestamp s r hs h
  have hget : getOrCreateEmpty (collectionGet s name) (fun _ => RGA.empty)
      = EffResult.ok r := by
    unfold getOrCreateEmpty collectionGet memoryGet
    rw [hs]
  unfold rgaCollectionRemoveAt
  rw [hget]
  show setWithSync push name (r.removeAt index) replicaId opId timestamp s
    = EffResult.ok ⟨aset s.store name r, s.clock.increment replicaId⟩
  rw [removeAt_out_of_bounds r index h]
  exact setWithSync_eq push name r replicaId opId timestamp s

/-- C10 witness. -/
theorem rga_removeAt_out_of_bounds_silent_witness :
    (RGA.mk [("e1", RGAElement.mk "e1" "x" 1000 "r1" "0.0")]
        : RGA String).removeAt 5
      = RGA.mk [("e1", RGAElement.mk "e1" "x" 1000 "r1" "0.0")]
    ∧ rgaCollectionRemoveAt (γ := String) (fun _ => Except.ok ()) "doc" 7 "r2"
        "op9" 3000
        ⟨[("doc", RGA.mk [("e1", RGAElement.mk "e1" "y" 1 "r2" "0.0")])],
          VectorClock.empty⟩
      = EffResult.ok
          ⟨[("doc", RGA.mk [("e1", RGAElement.mk "e1" "y" 1 "r2" "0.0")])],
            VectorClock.mk [("r2", 1)]⟩ := by
  constructor
  · exact rga_removeAt_out_of_bounds_silent.1 String _ 5 (by decide)
  · exact rga_removeAt_out_of_bounds_silent.2 String (fun _ => Except.ok ())
      "doc" 7 "r2" "op9" 3000
      ⟨[("doc", RGA.mk [("e1", RGAElement.mk "e1" "y" 1 "r2" "0.0")])],
        VectorClock.empty⟩
      (RGA.mk [("e1", RGAElement.mk "e1" "y" 1 "r2" "0.0")])
      (by decide) (by decide)

end LocalFirst
